import Mathlib

/-!
# ring_buffer_py: the ring buffer of `src/buffer.c`

A shallow embedding of `struct ring_buffer` (buffer.h) and of the functions of
buffer.c, followed by theorems about them.

Modelling conventions
* `llong` values are integers; every `llong` addition and subtraction of the
  source is followed by `wrap`, the two's complement result on 64 bits (what the
  hardware computes; `atomic_fetch_add` is defined by C11 to wrap).
* The atomics are read and written sequentially: one call runs at a time.
* The mapped region is `2 * count_bytes` bytes long. `ring_buffer_create` fills
  it with two `mmap` calls on `/dev/zero` with `MAP_SHARED`; each such call
  makes a zero-filled shared object of its own, so the two halves are backed by
  different objects: the byte at offset `x` of the region, `0 ≤ x < 2 *
  count_bytes`, is cell `x`, and a store at offset `x` is not seen at offset
  `x + count_bytes`. (The comment in `ring_buffer_create` expects the two halves
  to show the same bytes.)
* `memmove` is defined only inside the mapped region and inside the caller's
  array; a call for at least one byte that leaves either has no result
  (`none`). A call for zero bytes touches no byte and returns.
-/

namespace RingBuffer

/-- One `char` of storage. -/
abbrev Byte := UInt8

def LLONG_MAX : Int := 2 ^ 63 - 1

def LLONG_MIN : Int := -(2 ^ 63)

/-- The value a 64-bit two's complement register holds for the integer `x`. -/
def wrap (x : Int) : Int := (x + 2 ^ 63) % 2 ^ 64 - 2 ^ 63

/-- Conversion of an `llong` to `size_t` (the third argument of `memmove`). -/
def size_t (x : Int) : Nat := (x % 2 ^ 64).toNat

/-- `#define MIN(a,b) ((a)<(b)?(a):(b))` -/
def MIN (a b : Int) : Int := if a < b then a else b

/-- `#define MAX(a,b) ((a)>(b)?(a):(b))` -/
def MAX (a b : Int) : Int := if a > b then a else b

/-- The null pointer. -/
def NULL : Int := 0

/-- `MAP_FAILED` is `(void *) -1`. -/
def MAP_FAILED : Int := -1

/-- `struct ring_buffer` of buffer.h, field for field. -/
structure ring_buffer where
  address : Int
  count_bytes : Int
  count_mask : Int
  write_offset_bytes : Int
  cached_read_offset : Int
  read_offset_bytes : Int
  cached_write_offset : Int
  end_offset_bytes : Int
  page_size : Int
  deriving DecidableEq, Repr

/-- The struct together with what it points to: the region the process has
mapped for it (base address and half length, `none` when nothing is mapped),
the bytes of that region, one cell for each offset from the base, and the
`munmap` calls made so far. -/
structure Machine where
  buffer : ring_buffer
  mapping : Option (Int × Int)
  cells : Nat → Byte
  unmapped : List (Int × Int)

/-- The zero-filled struct `ring_buffer_create` expects, owning nothing. -/
def zeroed : Machine :=
  { buffer := ⟨0, 0, 0, 0, 0, 0, 0, 0, 0⟩, mapping := none, cells := fun _ => 0, unmapped := [] }

/-! ## The mapped region -/

/-- Bytes `bs` stored one after the other from offset `off` of the region. -/
def storeBytes (cells : Nat → Byte) (off : Nat) : List Byte → (Nat → Byte)
  | [] => cells
  | b :: bs => storeBytes (Function.update cells off b) (off + 1) bs

/-- The `len` bytes found from offset `off` of the region. -/
def loadBytes (cells : Nat → Byte) (off : Nat) : Nat → List Byte
  | 0 => []
  | len + 1 => cells off :: loadBytes cells (off + 1) len

/-- The span of `len` bytes at address `p`, when it lies inside the mapped
region: the length of one half of the region (the offset at which the second
mapping starts) and the offset of `p` from the base. An empty span touches no
byte and is in order wherever `p` points. -/
def span (m : Machine) (p : Int) (len : Nat) : Option (Nat × Nat) :=
  match m.mapping with
  | none => if len = 0 then some (0, 0) else none
  | some (base, half) =>
    if base ≤ p ∧ p + len ≤ base + 2 * half then some (half.toNat, (p - base).toNat)
    else if len = 0 then some (0, 0)
    else none

/-- `memmove (p, data, n)` with `p` in the buffer: the new cells. -/
def memmove_in (m : Machine) (p : Int) (data : List Byte) (n : Int) : Option (Nat → Byte) :=
  if size_t n ≤ data.length then
    match span m p (size_t n) with
    | none => none
    | some (_, off) => some (storeBytes m.cells off (data.take (size_t n)))
  else none

/-- `memmove (data, p, n)` with `p` in the buffer: the bytes that reach `data`. -/
def memmove_out (m : Machine) (p : Int) (n : Int) : Option (List Byte) :=
  match span m p (size_t n) with
  | none => none
  | some (_, off) => some (loadBytes m.cells off (size_t n))

/-! ## Construction and teardown -/

/-- What the system answers to the calls of `ring_buffer_create`, in order. -/
structure Host where
  fd : Int
  page_size : Int
  reserved : Int
  first : Int
  second : Int
  close_status : Int
  deriving DecidableEq, Repr

/-- `1LL << order`; the shift count is taken on 6 bits as the hardware does. -/
def shl_one (order : Int) : Int := wrap (2 ^ (order % 64).toNat)

/-- The rounding of line 38:
`((1LL << order) + (page_size - 1)) & (~(page_size - 1))`. -/
def round_to_page (page_size order : Int) : Int :=
  Int.land (wrap (shl_one order + wrap (page_size - 1))) (Int.not (wrap (page_size - 1)))

/-- `ring_buffer_create` (buffer.c 27-84). The three failure paths after the
reservation each `munmap` the doubled region, null the address and zero
`count_bytes`. -/
def ring_buffer_create (h : Host) (m : Machine) (order : Int) : Machine :=
  if h.fd < 0 then m
  else
    let count_bytes := round_to_page h.page_size order
    let buffer : ring_buffer :=
      { address := h.reserved
        count_bytes := count_bytes
        count_mask := wrap (count_bytes - 1)
        write_offset_bytes := 0
        cached_read_offset := 0
        read_offset_bytes := 0
        cached_write_offset := 0
        end_offset_bytes := 0
        page_size := h.page_size }
    let failed : Machine :=
      { buffer := { buffer with address := NULL, count_bytes := 0 }
        mapping := none
        cells := m.cells
        unmapped := m.unmapped ++ [(h.reserved, wrap (2 * count_bytes))] }
    if h.reserved = MAP_FAILED then { m with buffer := buffer }
    else if h.first ≠ h.reserved then failed
    else if h.second ≠ h.reserved + count_bytes then failed
    else if h.close_status ≠ 0 then failed
    else
      { buffer := buffer
        mapping := some (h.reserved, count_bytes)
        cells := fun _ => 0
        unmapped := m.unmapped }

/-- `ring_buffer_free` (buffer.c 86-96). `buffer` is what the pointer passed
points to, `none` for a null pointer; `status` is what `munmap` answers. The
call to `munmap` is logged; the region leaves the process when `munmap`
succeeds, and the two fields are cleared whatever it answers. -/
def ring_buffer_free (status : Int) (buffer : Option Machine) : Option Machine :=
  match buffer with
  | none => none
  | some m =>
    if m.buffer.address = NULL then some m
    else
      some
        { buffer := { m.buffer with address := 0, count_bytes := 0 }
          mapping :=
            if status = 0 ∧ m.mapping = some (m.buffer.address, m.buffer.count_bytes) then none
            else m.mapping
          cells := m.cells
          unmapped := m.unmapped ++ [(m.buffer.address, wrap (2 * m.buffer.count_bytes))] }

/-! ## Offsets -/

/-- `ring_buffer_write_address` (buffer.c 98-101). -/
def ring_buffer_write_address (buffer : ring_buffer) : Int :=
  buffer.address + Int.land buffer.count_mask buffer.write_offset_bytes

/-- `ring_buffer_write_advance` (buffer.c 103-109). -/
def ring_buffer_write_advance (buffer : ring_buffer) (count_bytes : Int) : ring_buffer :=
  let count_bytes := MAX count_bytes 0
  let post := wrap (buffer.write_offset_bytes + count_bytes)
  let post := MIN post (wrap (buffer.read_offset_bytes + buffer.count_bytes))
  { buffer with write_offset_bytes := post }

/-- `ring_buffer_read_address` (buffer.c 110-112). -/
def ring_buffer_read_address (buffer : ring_buffer) : Int :=
  buffer.address + Int.land buffer.count_mask buffer.read_offset_bytes

/-- `ring_buffer_read_advance` (buffer.c 113-119). -/
def ring_buffer_read_advance (buffer : ring_buffer) (count_bytes : Int) : ring_buffer :=
  let count_bytes := MAX count_bytes 0
  let post := wrap (buffer.read_offset_bytes + count_bytes)
  let post := MIN post buffer.write_offset_bytes
  { buffer with read_offset_bytes := post }

/-- `ring_buffer_count_bytes` (buffer.c 123-127): both caches are refreshed,
the difference of the cursors is returned. -/
def ring_buffer_count_bytes (buffer : ring_buffer) : ring_buffer × Int :=
  ({ buffer with
      cached_write_offset := buffer.write_offset_bytes
      cached_read_offset := buffer.read_offset_bytes },
    wrap (buffer.write_offset_bytes - buffer.read_offset_bytes))

/-- `ring_buffer_count_free_bytes` (buffer.c 130-133). -/
def ring_buffer_count_free_bytes (buffer : ring_buffer) : ring_buffer × Int :=
  ((ring_buffer_count_bytes buffer).1, wrap (buffer.count_bytes - (ring_buffer_count_bytes buffer).2))

/-- `ring_buffer_clear` (buffer.c 135-141). -/
def ring_buffer_clear (buffer : ring_buffer) : ring_buffer :=
  { buffer with
    cached_write_offset := 0
    write_offset_bytes := 0
    cached_read_offset := 0
    read_offset_bytes := 0 }

/-- `ring_buffer_write_close` (buffer.c 175-177). -/
def ring_buffer_write_close (buffer : ring_buffer) : ring_buffer :=
  { buffer with end_offset_bytes := buffer.write_offset_bytes }

/-- `ring_buffer_eof` (buffer.c 179-180). -/
def ring_buffer_eof (buffer : ring_buffer) : Bool :=
  buffer.write_offset_bytes == buffer.read_offset_bytes

/-! ## Copying transfers -/

/-- `ring_buffer_write` (buffer.c 146-157): the machine afterwards and the
value returned. The second comparison of the `&&` runs only when the first
holds, and it is the one that stores the live read cursor in the cache. -/
def ring_buffer_write (m : Machine) (data : List Byte) (count_bytes : Int) :
    Option (Machine × Int) :=
  let buffer := m.buffer
  let write_offset := buffer.write_offset_bytes
  let read_offset := buffer.cached_read_offset
  let first : Bool := wrap (write_offset + count_bytes) > wrap (buffer.count_bytes + read_offset)
  let buffer := if first then { buffer with cached_read_offset := buffer.read_offset_bytes } else buffer
  let read_offset := if first then buffer.read_offset_bytes else read_offset
  let both : Bool :=
    first && wrap (write_offset + count_bytes) > wrap (buffer.count_bytes + read_offset)
  let count_bytes :=
    if both then wrap (wrap (read_offset + buffer.count_bytes) - write_offset) else count_bytes
  match memmove_in m (buffer.address + Int.land buffer.count_mask write_offset) data count_bytes with
  | none => none
  | some cells =>
    some ({ m with
            buffer := { buffer with
              write_offset_bytes := wrap (buffer.write_offset_bytes + count_bytes) }
            cells := cells },
          count_bytes)

/-- `ring_buffer_read` (buffer.c 160-171): the machine afterwards, the value
returned and the bytes copied to `data`. -/
def ring_buffer_read (m : Machine) (count_bytes : Int) : Option (Machine × Int × List Byte) :=
  let buffer := m.buffer
  let write_offset := buffer.cached_write_offset
  let read_offset := buffer.read_offset_bytes
  let first : Bool := wrap (read_offset + count_bytes) > write_offset
  let buffer := if first then { buffer with cached_write_offset := buffer.write_offset_bytes } else buffer
  let write_offset := if first then buffer.write_offset_bytes else write_offset
  let both : Bool := first && wrap (read_offset + count_bytes) > write_offset
  let count_bytes := if both then wrap (write_offset - read_offset) else count_bytes
  match memmove_out m (buffer.address + Int.land buffer.count_mask read_offset) count_bytes with
  | none => none
  | some out =>
    some ({ m with
            buffer := { buffer with
              read_offset_bytes := wrap (buffer.read_offset_bytes + count_bytes) } },
          count_bytes, out)

/-- `ring_buffer_peek` (buffer.c 183-194): as `ring_buffer_read`, with the
comparison written as a difference and without the final `atomic_fetch_add`. -/
def ring_buffer_peek (m : Machine) (count_bytes : Int) : Option (Machine × Int × List Byte) :=
  let buffer := m.buffer
  let write_offset := buffer.cached_write_offset
  let read_offset := buffer.read_offset_bytes
  let first : Bool := count_bytes > wrap (write_offset - read_offset)
  let buffer := if first then { buffer with cached_write_offset := buffer.write_offset_bytes } else buffer
  let write_offset := if first then buffer.write_offset_bytes else write_offset
  let both : Bool := first && count_bytes > wrap (write_offset - read_offset)
  let count_bytes := if both then wrap (write_offset - read_offset) else count_bytes
  match memmove_out m (buffer.address + Int.land buffer.count_mask read_offset) count_bytes with
  | none => none
  | some out => some ({ m with buffer := buffer }, count_bytes, out)

/-! ## The public calls, one after the other -/

/-- One call of the public interface (spec section 6), creation and teardown apart. -/
inductive Call where
  | write (data : List Byte) (n : Int)
  | read (n : Int)
  | peek (n : Int)
  | advance_write (n : Int)
  | advance_read (n : Int)
  | available_for_read
  | available_for_write
  | reset
  | signal_close
  | at_end_of_stream

/-- The machine after a call, when the call returns. -/
def exec (m : Machine) : Call → Option Machine
  | .write data n => (ring_buffer_write m data n).map Prod.fst
  | .read n => (ring_buffer_read m n).map Prod.fst
  | .peek n => (ring_buffer_peek m n).map Prod.fst
  | .advance_write n => some { m with buffer := ring_buffer_write_advance m.buffer n }
  | .advance_read n => some { m with buffer := ring_buffer_read_advance m.buffer n }
  | .available_for_read => some { m with buffer := (ring_buffer_count_bytes m.buffer).1 }
  | .available_for_write => some { m with buffer := (ring_buffer_count_free_bytes m.buffer).1 }
  | .reset => some { m with buffer := ring_buffer_clear m.buffer }
  | .signal_close => some { m with buffer := ring_buffer_write_close m.buffer }
  | .at_end_of_stream => some m

/-- The machine after a list of calls, when each of them returns. -/
def run (m : Machine) : List Call → Option Machine
  | [] => some m
  | c :: cs => (exec m c).bind fun m' => run m' cs

/-- The length argument of the call, if it has one, is not negative. -/
def Call.nonneg : Call → Prop
  | .write _ n => 0 ≤ n
  | .read n => 0 ≤ n
  | .peek n => 0 ≤ n
  | .advance_write n => 0 ≤ n
  | .advance_read n => 0 ≤ n
  | _ => True

/-- No `llong` sum the call computes on `buffer` leaves the `llong` range: the
cursor plus the length asked, and for the producer side the read cursor plus
`count_bytes`. -/
def Call.fits (buffer : ring_buffer) : Call → Prop
  | .write _ n =>
    buffer.write_offset_bytes + n ≤ LLONG_MAX ∧
      buffer.read_offset_bytes + buffer.count_bytes ≤ LLONG_MAX
  | .read n => buffer.read_offset_bytes + n ≤ LLONG_MAX
  | .advance_write n =>
    buffer.write_offset_bytes + n ≤ LLONG_MAX ∧
      buffer.read_offset_bytes + buffer.count_bytes ≤ LLONG_MAX
  | .advance_read n => buffer.read_offset_bytes + n ≤ LLONG_MAX
  | _ => True

/-- The call leaves the write cursor to the producer: it is neither a write,
nor an advance_write, nor a reset. -/
def Call.consumer_side : Call → Prop
  | .write _ _ => False
  | .advance_write _ => False
  | .reset => False
  | _ => True

/-- A call whose length argument is non-negative, in any state. -/
def nonneg_call (_ : Machine) (c : Call) : Prop := c.nonneg

/-- A call whose length argument is non-negative and overflows nothing in state `m`. -/
def fitting_call (m : Machine) (c : Call) : Prop := c.nonneg ∧ c.fits m.buffer

/-! ## The data model (spec section 3) -/

/-- The value fits an `llong`. -/
def is_llong (x : Int) : Prop := LLONG_MIN ≤ x ∧ x ≤ LLONG_MAX

instance (x : Int) : Decidable (is_llong x) := by
  unfold is_llong
  infer_instance

/-- The data-model invariants of a usable buffer: it owns the doubled region
at `address`, `count_bytes` is a power of two with `count_mask` one less, the
cursors satisfy `0 ≤ read ≤ write ≤ read + count_bytes`, and the `llong`
fields hold `llong` values. -/
structure Inv (m : Machine) : Prop where
  mapped : m.mapping = some (m.buffer.address, m.buffer.count_bytes)
  capacity : ∃ k : Nat, m.buffer.count_bytes = 2 ^ k
  mask : m.buffer.count_mask = m.buffer.count_bytes - 1
  read_nonneg : 0 ≤ m.buffer.read_offset_bytes
  read_le_write : m.buffer.read_offset_bytes ≤ m.buffer.write_offset_bytes
  write_le : m.buffer.write_offset_bytes ≤ m.buffer.read_offset_bytes + m.buffer.count_bytes
  count_llong : is_llong m.buffer.count_bytes
  write_llong : is_llong m.buffer.write_offset_bytes
  cached_read_llong : is_llong m.buffer.cached_read_offset
  cached_write_llong : is_llong m.buffer.cached_write_offset

/-- The data model together with the cached snapshots lying between zero and
the live cursors. -/
def Sound (m : Machine) : Prop :=
  Inv m ∧
    0 ≤ m.buffer.cached_read_offset ∧ m.buffer.cached_read_offset ≤ m.buffer.read_offset_bytes ∧
    0 ≤ m.buffer.cached_write_offset ∧ m.buffer.cached_write_offset ≤ m.buffer.write_offset_bytes

/-- Every step of `ring_buffer_create` succeeds on host `h` for `order`: the
page size is a power of two, `order` is one whose doubled size fits an `llong`,
`/dev/zero` opens, the reservation and both fixed mappings land where asked,
and the handle closes. -/
structure Created (h : Host) (order : Int) : Prop where
  page : ∃ p : Nat, p ≤ 61 ∧ h.page_size = 2 ^ p
  order_nonneg : 0 ≤ order
  order_le : order ≤ 61
  opened : 0 ≤ h.fd
  reserved : h.reserved ≠ MAP_FAILED
  first : h.first = h.reserved
  second : h.second = h.reserved + round_to_page h.page_size order
  closed : h.close_status = 0

/-- The states reached from a successful `ring_buffer_create` by calls that
return and satisfy `ok` in the state they are made in. -/
inductive Reach (ok : Machine → Call → Prop) (h : Host) (order : Int) : Machine → Prop
  | created : Created h order → Reach ok h order (ring_buffer_create h zeroed order)
  | call {m m' : Machine} (c : Call) :
      Reach ok h order m → ok m c → exec m c = some m' → Reach ok h order m'

/-! ## Sample inputs -/

/-- A host with 4096-byte pages on which every step succeeds for order 12. -/
def host4096 : Host :=
  { fd := 3, page_size := 4096, reserved := 65536, first := 65536, second := 69632,
    close_status := 0 }

/-- A host with 4096-byte pages on which `/dev/zero` opens and the reservation
fails. -/
def host_unreserved : Host :=
  { fd := 3, page_size := 4096, reserved := MAP_FAILED, first := MAP_FAILED,
    second := MAP_FAILED, close_status := 0 }

/-- The buffer `ring_buffer_create` leaves on `host4096` for order 12. -/
def fresh4096 : Machine :=
  { buffer :=
      { address := 65536, count_bytes := 4096, count_mask := 4095, write_offset_bytes := 0,
        cached_read_offset := 0, read_offset_bytes := 0, cached_write_offset := 0,
        end_offset_bytes := 0, page_size := 4096 }
    mapping := some (65536, 4096)
    cells := fun _ => 0
    unmapped := [] }

/-- The same buffer with write cursor `w`, read cursor `r` and caches `cr`, `cw`. -/
def at4096 (w r cr cw : Int) : Machine :=
  { fresh4096 with
    buffer :=
      { fresh4096.buffer with
        write_offset_bytes := w, read_offset_bytes := r,
        cached_read_offset := cr, cached_write_offset := cw } }

/-- The sample buffer holding one unread byte, 65. -/
def unread4096 : Machine :=
  { at4096 1 0 0 0 with cells := fun i => if i = 0 then 65 else 0 }

/-- The sample buffer after the six bytes 1 to 6 were written at cursor 4094:
they lie at offsets 4094 to 4099 of the region, across the end of its first
half, and are unread. -/
def crossing4096 : Machine :=
  { at4096 4100 4094 4094 0 with cells := storeBytes (fun _ => 0) 4094 [1, 2, 3, 4, 5, 6] }

/-- The buffer `crossing4096` after the ten bytes 11 to 20 were written at
cursor 4100: they lie at offsets 4 to 13 of the region. -/
def landed4096 : Machine :=
  { at4096 4110 4094 4094 0 with
    cells := storeBytes crossing4096.cells 4 [11, 12, 13, 14, 15, 16, 17, 18, 19, 20] }

/-! ## Arithmetic of the embedding -/

theorem wrap_eq {x : Int} (h1 : LLONG_MIN ≤ x) (h2 : x ≤ LLONG_MAX) : wrap x = x := by
  unfold wrap
  unfold LLONG_MIN at h1
  unfold LLONG_MAX at h2
  rw [Int.emod_eq_of_lt (by omega) (by omega)]
  omega

theorem pow_two_sub_one_cast (k : Nat) : ((2 : Int) ^ k - 1) = ((2 ^ k - 1 : Nat) : Int) := by
  have : 1 ≤ 2 ^ k := Nat.one_le_two_pow
  push_cast [Nat.cast_sub this]
  rfl

theorem land_mask (k : Nat) {x : Int} (hx : 0 ≤ x) : Int.land (2 ^ k - 1) x = x % 2 ^ k := by
  obtain ⟨n, rfl⟩ := Int.eq_ofNat_of_zero_le hx
  rw [pow_two_sub_one_cast]
  show (((2 ^ k - 1) &&& n : Nat) : Int) = _
  rw [Nat.and_comm, Nat.and_pow_two_sub_one_eq_mod]
  norm_cast

theorem ldiff_low (x p : Nat) : Nat.ldiff x (2 ^ p - 1) = 2 ^ p * (x / 2 ^ p) := by
  apply Nat.eq_of_testBit_eq
  intro i
  rw [Nat.testBit_ldiff, Nat.testBit_two_pow_sub_one, Nat.testBit_mul_pow_two,
    ← Nat.shiftRight_eq_div_pow, Nat.testBit_shiftRight]
  by_cases h : i < p
  · simp [h]
  · have h2 : p + (i - p) = i := by omega
    simp [h, h2, Nat.le_of_not_lt h]

theorem land_not_mask (p : Nat) {x : Int} (hx : 0 ≤ x) :
    Int.land x (Int.not (2 ^ p - 1)) = 2 ^ p * (x / 2 ^ p) := by
  obtain ⟨n, rfl⟩ := Int.eq_ofNat_of_zero_le hx
  rw [pow_two_sub_one_cast]
  show ((Nat.ldiff n (2 ^ p - 1) : Nat) : Int) = _
  rw [ldiff_low]
  norm_cast

theorem size_t_eq {x : Int} (h0 : 0 ≤ x) (h1 : x ≤ LLONG_MAX) : size_t x = x.toNat := by
  unfold size_t
  unfold LLONG_MAX at h1
  rw [Int.emod_eq_of_lt h0 (by omega)]

theorem pow_le_61 {k : Nat} (hk : k ≤ 61) : (2 : Int) ^ k ≤ 2 ^ 61 :=
  pow_le_pow_right₀ (by norm_num) hk

/-- Line 38 on a power-of-two page size: the larger of `2 ^ order` and the page size. -/
theorem round_to_page_pow {p o : Nat} (hp : p ≤ 61) (ho : o ≤ 61) :
    round_to_page (2 ^ p) o = 2 ^ max p o := by
  have hP := pow_le_61 hp
  have hO := pow_le_61 ho
  have hP0 : (0 : Int) < 2 ^ p := by positivity
  have hO0 : (0 : Int) < 2 ^ o := by positivity
  have hmax : LLONG_MAX = 2 ^ 63 - 1 := rfl
  have hmin : LLONG_MIN = -(2 ^ 63) := rfl
  have hs : shl_one (o : Int) = 2 ^ o := by
    unfold shl_one
    have : ((o : Int) % 64).toNat = o := by omega
    rw [this]
    exact wrap_eq (by omega) (by omega)
  have e1 : wrap ((2 : Int) ^ p - 1) = 2 ^ p - 1 := wrap_eq (by omega) (by omega)
  have e2 : wrap ((2 : Int) ^ o + (2 ^ p - 1)) = 2 ^ o + (2 ^ p - 1) :=
    wrap_eq (by omega) (by omega)
  unfold round_to_page
  rw [hs, e1, e2, land_not_mask p (by omega)]
  rcases le_total p o with h | h
  · rw [max_eq_right h]
    obtain ⟨d, rfl⟩ := Nat.exists_eq_add_of_le h
    have e3 : (2 : Int) ^ (p + d) + (2 ^ p - 1) = (2 ^ p - 1) + 2 ^ p * 2 ^ d := by ring
    rw [e3, Int.add_mul_ediv_left _ _ (ne_of_gt hP0), Int.ediv_eq_zero_of_lt (by omega) (by omega)]
    ring
  · rw [max_eq_left h]
    have hle : (2 : Int) ^ o ≤ 2 ^ p := pow_le_pow_right₀ (by norm_num) h
    have e3 : (2 : Int) ^ o + (2 ^ p - 1) = (2 ^ o - 1) + 2 ^ p * 1 := by ring
    rw [e3, Int.add_mul_ediv_left _ _ (ne_of_gt hP0), Int.ediv_eq_zero_of_lt (by omega) (by omega)]
    ring

/-- What a successful `ring_buffer_create` leaves. -/
theorem create_ok {h : Host} {order : Int} (hc : Created h order) :
    ring_buffer_create h zeroed order =
      { buffer :=
          { address := h.reserved
            count_bytes := round_to_page h.page_size order
            count_mask := round_to_page h.page_size order - 1
            write_offset_bytes := 0
            cached_read_offset := 0
            read_offset_bytes := 0
            cached_write_offset := 0
            end_offset_bytes := 0
            page_size := h.page_size }
        mapping := some (h.reserved, round_to_page h.page_size order)
        cells := fun _ => 0
        unmapped := [] } ∧
    ∃ k : Nat, k ≤ 61 ∧ round_to_page h.page_size order = 2 ^ k := by
  obtain ⟨p, hp, hps⟩ := hc.page
  obtain ⟨o, rfl⟩ := Int.eq_ofNat_of_zero_le hc.order_nonneg
  have ho : o ≤ 61 := by have := hc.order_le; omega
  have hr : round_to_page h.page_size o = 2 ^ max p o := by rw [hps]; exact round_to_page_pow hp ho
  have hk := pow_le_61 (max_le hp ho)
  have hk0 : (0 : Int) < 2 ^ max p o := by positivity
  have hmax : LLONG_MAX = 2 ^ 63 - 1 := rfl
  have hmin : LLONG_MIN = -(2 ^ 63) := rfl
  have e1 : wrap ((2 : Int) ^ max p o - 1) = 2 ^ max p o - 1 := wrap_eq (by omega) (by omega)
  refine ⟨?_, max p o, max_le hp ho, hr⟩
  unfold ring_buffer_create
  have h1 : ¬ h.fd < 0 := not_lt.mpr hc.opened
  have h3 : ¬ h.first ≠ h.reserved := not_not.mpr hc.first
  have h4 : ¬ h.second ≠ h.reserved + round_to_page h.page_size o := not_not.mpr hc.second
  have h5 : ¬ h.close_status ≠ 0 := not_not.mpr hc.closed
  simp only [if_neg h1, if_neg hc.reserved, if_neg h3, if_neg h4, if_neg h5]
  rw [hr, e1]
  rfl

/-- The span at a cursor: inside the region whenever at most `count_bytes` bytes are asked. -/
theorem span_cursor {m : Machine} (hI : Inv m) {x : Int} (hx : 0 ≤ x) {len : Nat}
    (hlen : (len : Int) ≤ m.buffer.count_bytes) :
    span m (m.buffer.address + Int.land m.buffer.count_mask x) len
      = some (m.buffer.count_bytes.toNat, (x % m.buffer.count_bytes).toNat) := by
  obtain ⟨k, hk⟩ := hI.capacity
  have hpos : (0 : Int) < m.buffer.count_bytes := by rw [hk]; positivity
  have hland : Int.land m.buffer.count_mask x = x % m.buffer.count_bytes := by
    rw [hI.mask, hk, land_mask k hx]
  have h1 := Int.emod_nonneg x (ne_of_gt hpos)
  have h2 := Int.emod_lt_of_pos x hpos
  unfold span
  rw [hI.mapped, hland]
  simp only
  rw [if_pos (by constructor <;> omega)]
  simp

/-! ## The mapped region: what is stored is what is loaded -/

theorem storeBytes_other (c : Nat) (bs : List Byte) :
    ∀ (cells : Nat → Byte) (off : Nat), (∀ i, i < bs.length → off + i ≠ c) →
      storeBytes cells off bs c = cells c := by
  induction bs with
  | nil => intro cells off _; rfl
  | cons x xs ih =>
    intro cells off h
    simp only [storeBytes]
    rw [ih]
    · have := h 0 (by simp)
      simp only [Nat.add_zero] at this
      exact Function.update_noteq (Ne.symm this) _ _
    · intro i hi
      have := h (i + 1) (by simpa using hi)
      rwa [Nat.add_assoc, Nat.add_comm 1 i]

/-- The first byte stored is found at the offset it was stored at. -/
theorem storeBytes_head (cells : Nat → Byte) (off : Nat) (b : Byte) (bs : List Byte) :
    storeBytes cells off (b :: bs) off = b := by
  simp only [storeBytes]
  rw [storeBytes_other]
  · exact Function.update_same _ _ _
  · intro i _
    omega

/-- The second byte stored is found one offset further. -/
theorem storeBytes_second (cells : Nat → Byte) (off : Nat) (a b : Byte) (bs : List Byte) :
    storeBytes cells off (a :: b :: bs) (off + 1) = b := by
  simp only [storeBytes]
  rw [storeBytes_other]
  · exact Function.update_same _ _ _
  · intro i _
    omega

theorem loadBytes_congr (f g : Nat → Byte) (len : Nat) :
    ∀ (off : Nat), (∀ i, i < len → f (off + i) = g (off + i)) →
      loadBytes f off len = loadBytes g off len := by
  induction len with
  | zero => intro off _; rfl
  | succ k ih =>
    intro off h
    simp only [loadBytes]
    have h0 := h 0 (by omega)
    simp only [Nat.add_zero] at h0
    rw [h0, ih]
    intro i hi
    have := h (i + 1) (by omega)
    rwa [Nat.add_assoc, Nat.add_comm 1 i]

theorem loadBytes_append (f : Nat → Byte) (a b : Nat) :
    ∀ (off : Nat), loadBytes f off (a + b) = loadBytes f off a ++ loadBytes f (off + a) b := by
  induction a with
  | zero => intro off; simp [loadBytes]
  | succ k ih =>
    intro off
    rw [Nat.add_right_comm, loadBytes, loadBytes, ih (off + 1)]
    simp [Nat.add_assoc, Nat.add_comm 1 k]

theorem loadBytes_length (f : Nat → Byte) (len : Nat) :
    ∀ (off : Nat), (loadBytes f off len).length = len := by
  induction len with
  | zero => intro off; rfl
  | succ k ih => intro off; simp [loadBytes, ih]

theorem load_store (bs : List Byte) :
    ∀ (cells : Nat → Byte) (off : Nat),
      loadBytes (storeBytes cells off bs) off bs.length = bs := by
  induction bs with
  | nil => intro cells off; rfl
  | cons x xs ih =>
    intro cells off
    simp only [storeBytes, loadBytes, List.length_cons]
    rw [ih _ _, storeBytes_other]
    · simp
    · intro i hi
      omega

/-- Bytes stored right after `k` bytes leave those in place: loading
`k + |bs|` bytes from the old offset gives the old bytes, then `bs`. -/
theorem load_store_after (bs : List Byte) (cells : Nat → Byte) (off k : Nat) :
    loadBytes (storeBytes cells (off + k) bs) off (k + bs.length)
      = loadBytes cells off k ++ bs := by
  rw [loadBytes_append, load_store bs cells (off + k)]
  congr 1
  apply loadBytes_congr
  intro i hi
  apply storeBytes_other
  intro j hj
  omega

/-! ## The transfers in closed form -/

theorem count_pos {m : Machine} (hI : Inv m) : 0 < m.buffer.count_bytes := by
  obtain ⟨k, hk⟩ := hI.capacity
  rw [hk]; positivity

/-- `ring_buffer_write` in closed form, for a length that overflows nothing:
the call returns exactly when `data` holds the bytes to copy. -/
theorem write_total {m : Machine} (hI : Inv m)
    (hc : m.buffer.cached_read_offset ≤ m.buffer.read_offset_bytes)
    {n : Int} (hn : 0 ≤ n) (hov : m.buffer.write_offset_bytes + n ≤ LLONG_MAX)
    (hroom : m.buffer.read_offset_bytes + m.buffer.count_bytes ≤ LLONG_MAX)
    (data : List Byte) :
    ring_buffer_write m data n =
      if (min n (m.buffer.count_bytes -
          (m.buffer.write_offset_bytes - m.buffer.read_offset_bytes))).toNat ≤ data.length then
        some ({ m with
          buffer := { m.buffer with
            cached_read_offset :=
              if m.buffer.write_offset_bytes + n > m.buffer.count_bytes + m.buffer.cached_read_offset
              then m.buffer.read_offset_bytes else m.buffer.cached_read_offset
            write_offset_bytes := m.buffer.write_offset_bytes +
              min n (m.buffer.count_bytes -
                (m.buffer.write_offset_bytes - m.buffer.read_offset_bytes)) }
          cells := storeBytes m.cells
            (m.buffer.write_offset_bytes % m.buffer.count_bytes).toNat
            (data.take (min n (m.buffer.count_bytes -
              (m.buffer.write_offset_bytes - m.buffer.read_offset_bytes))).toNat) },
          min n (m.buffer.count_bytes - (m.buffer.write_offset_bytes - m.buffer.read_offset_bytes)))
      else none := by
  have hr0 := hI.read_nonneg
  have hrw := hI.read_le_write
  have hwl := hI.write_le
  obtain ⟨hl1, hl2⟩ := hI.cached_read_llong
  have hsp := fun (len : Nat) (h : (len : Int) ≤ m.buffer.count_bytes) =>
    span_cursor hI (le_trans hr0 hrw) h
  have hpos := count_pos hI
  clear hI
  obtain ⟨⟨addr, C, mask, w, cr, r, cw, e, ps⟩, mp, cells, um⟩ := m
  simp only at hc hov hroom hr0 hrw hwl hl1 hl2 hsp hpos ⊢
  have hmin : LLONG_MIN = -(2 ^ 63) := rfl
  have hmax : LLONG_MAX = 2 ^ 63 - 1 := rfl
  have e1 : wrap (w + n) = w + n := wrap_eq (by omega) hov
  have e2 : wrap (C + cr) = C + cr := wrap_eq (by omega) (by omega)
  have e3 : wrap (C + r) = C + r := wrap_eq (by omega) (by omega)
  have e4 : wrap (r + C) = r + C := wrap_eq (by omega) (by omega)
  have e5 : wrap (r + C - w) = r + C - w := wrap_eq (by omega) (by omega)
  unfold ring_buffer_write
  by_cases h1 : w + n > C + cr
  · by_cases h2 : w + n > C + r
    · have hk : min n (C - (w - r)) = r + C - w := by omega
      rw [hk]
      have e6 : wrap (w + (r + C - w)) = w + (r + C - w) := wrap_eq (by omega) (by omega)
      have hs : size_t (r + C - w) = (r + C - w).toNat := size_t_eq (by omega) (by omega)
      simp only [e1, e2, e3, e4, e5, e6, h1, h2, decide_True, if_true, Bool.true_and, Bool.and_self,
        memmove_in, hs]
      rw [hsp _ (by omega)]
      split_ifs <;> rfl
    · have hk : min n (C - (w - r)) = n := by omega
      rw [hk]
      have hs : size_t n = n.toNat := size_t_eq (by omega) (by omega)
      simp only [e1, e2, e3, e4, e5, h1, h2, decide_True, decide_False, if_true, Bool.true_and,
        Bool.and_false, Bool.false_eq_true, if_false, memmove_in, hs]
      rw [hsp _ (by omega)]
      split_ifs <;> rfl
  · have hk : min n (C - (w - r)) = n := by omega
    rw [hk]
    have hs : size_t n = n.toNat := size_t_eq (by omega) (by omega)
    simp only [e1, e2, e3, e4, e5, h1, decide_False, Bool.false_and,
        Bool.false_eq_true, if_false, memmove_in, hs]
    rw [hsp _ (by omega)]
    split_ifs <;> rfl

/-- `ring_buffer_write` in closed form when `data` holds the bytes to copy. -/
theorem write_run {m : Machine} (hI : Inv m)
    (hc : m.buffer.cached_read_offset ≤ m.buffer.read_offset_bytes)
    {n : Int} (hn : 0 ≤ n) (hov : m.buffer.write_offset_bytes + n ≤ LLONG_MAX)
    (hroom : m.buffer.read_offset_bytes + m.buffer.count_bytes ≤ LLONG_MAX)
    {data : List Byte}
    (hd : min n (m.buffer.count_bytes - (m.buffer.write_offset_bytes - m.buffer.read_offset_bytes))
      ≤ data.length) :
    ring_buffer_write m data n =
      some ({ m with
        buffer := { m.buffer with
          cached_read_offset :=
            if m.buffer.write_offset_bytes + n > m.buffer.count_bytes + m.buffer.cached_read_offset
            then m.buffer.read_offset_bytes else m.buffer.cached_read_offset
          write_offset_bytes := m.buffer.write_offset_bytes +
            min n (m.buffer.count_bytes - (m.buffer.write_offset_bytes - m.buffer.read_offset_bytes)) }
        cells := storeBytes m.cells
          (m.buffer.write_offset_bytes % m.buffer.count_bytes).toNat
          (data.take (min n (m.buffer.count_bytes -
            (m.buffer.write_offset_bytes - m.buffer.read_offset_bytes))).toNat) },
        min n (m.buffer.count_bytes - (m.buffer.write_offset_bytes - m.buffer.read_offset_bytes))) := by
  rw [write_total hI hc hn hov hroom data, if_pos (by omega)]

/-- `ring_buffer_read` in closed form, for a length that overflows nothing. -/
theorem read_run {m : Machine} (hI : Inv m)
    (hc : m.buffer.cached_write_offset ≤ m.buffer.write_offset_bytes)
    {n : Int} (hn : 0 ≤ n) (hov : m.buffer.read_offset_bytes + n ≤ LLONG_MAX) :
    ring_buffer_read m n =
      some ({ m with
        buffer := { m.buffer with
          cached_write_offset :=
            if m.buffer.read_offset_bytes + n > m.buffer.cached_write_offset
            then m.buffer.write_offset_bytes else m.buffer.cached_write_offset
          read_offset_bytes := m.buffer.read_offset_bytes +
            min n (m.buffer.write_offset_bytes - m.buffer.read_offset_bytes) } },
        min n (m.buffer.write_offset_bytes - m.buffer.read_offset_bytes),
        loadBytes m.cells
          (m.buffer.read_offset_bytes % m.buffer.count_bytes).toNat
          (min n (m.buffer.write_offset_bytes - m.buffer.read_offset_bytes)).toNat) := by
  have hr0 := hI.read_nonneg
  have hrw := hI.read_le_write
  have hwl := hI.write_le
  obtain ⟨hl1, hl2⟩ := hI.write_llong
  obtain ⟨hl3, hl4⟩ := hI.count_llong
  have hsp := fun (len : Nat) (h : (len : Int) ≤ m.buffer.count_bytes) =>
    span_cursor hI hr0 h
  have hpos := count_pos hI
  clear hI
  obtain ⟨⟨addr, C, mask, w, cr, r, cw, e, ps⟩, mp, cells, um⟩ := m
  simp only at hc hov hr0 hrw hwl hl1 hl2 hl3 hl4 hsp hpos ⊢
  have hmin : LLONG_MIN = -(2 ^ 63) := rfl
  have hmax : LLONG_MAX = 2 ^ 63 - 1 := rfl
  have e1 : wrap (r + n) = r + n := wrap_eq (by omega) hov
  have e2 : wrap (w - r) = w - r := wrap_eq (by omega) (by omega)
  unfold ring_buffer_read
  by_cases h1 : r + n > cw
  · by_cases h2 : r + n > w
    · have hk : min n (w - r) = w - r := by omega
      rw [hk]
      have e6 : wrap (r + (w - r)) = r + (w - r) := wrap_eq (by omega) (by omega)
      have hs : size_t (w - r) = (w - r).toNat := size_t_eq (by omega) (by omega)
      simp only [e1, e2, e6, h1, h2, decide_True, if_true, Bool.true_and, Bool.and_self,
        memmove_out, hs]
      rw [hsp _ (by omega)]
    · have hk : min n (w - r) = n := by omega
      rw [hk]
      have hs : size_t n = n.toNat := size_t_eq (by omega) (by omega)
      simp only [e1, e2, h1, h2, decide_True, decide_False, if_true, Bool.true_and,
        Bool.and_false, Bool.false_eq_true, if_false, memmove_out, hs]
      rw [hsp _ (by omega)]
  · have hk : min n (w - r) = n := by omega
    rw [hk]
    have hs : size_t n = n.toNat := size_t_eq (by omega) (by omega)
    simp only [e1, e2, h1, decide_False, Bool.false_and,
        Bool.false_eq_true, if_false, memmove_out, hs]
    rw [hsp _ (by omega)]

/-- `ring_buffer_peek` in closed form; the difference form of its comparison
needs no bound on the length. -/
theorem peek_run {m : Machine} (hI : Inv m)
    (hc0 : 0 ≤ m.buffer.cached_write_offset)
    (hc : m.buffer.cached_write_offset ≤ m.buffer.write_offset_bytes)
    {n : Int} (hn : 0 ≤ n) :
    ring_buffer_peek m n =
      some ({ m with
        buffer := { m.buffer with
          cached_write_offset :=
            if n > m.buffer.cached_write_offset - m.buffer.read_offset_bytes
            then m.buffer.write_offset_bytes else m.buffer.cached_write_offset } },
        min n (m.buffer.write_offset_bytes - m.buffer.read_offset_bytes),
        loadBytes m.cells
          (m.buffer.read_offset_bytes % m.buffer.count_bytes).toNat
          (min n (m.buffer.write_offset_bytes - m.buffer.read_offset_bytes)).toNat) := by
  have hr0 := hI.read_nonneg
  have hrw := hI.read_le_write
  have hwl := hI.write_le
  obtain ⟨hl1, hl2⟩ := hI.write_llong
  obtain ⟨hl3, hl4⟩ := hI.count_llong
  have hsp := fun (len : Nat) (h : (len : Int) ≤ m.buffer.count_bytes) =>
    span_cursor hI hr0 h
  have hpos := count_pos hI
  clear hI
  obtain ⟨⟨addr, C, mask, w, cr, r, cw, e, ps⟩, mp, cells, um⟩ := m
  simp only at hc hc0 hr0 hrw hwl hl1 hl2 hl3 hl4 hsp hpos ⊢
  have hmin : LLONG_MIN = -(2 ^ 63) := rfl
  have hmax : LLONG_MAX = 2 ^ 63 - 1 := rfl
  have e1 : wrap (cw - r) = cw - r := wrap_eq (by omega) (by omega)
  have e2 : wrap (w - r) = w - r := wrap_eq (by omega) (by omega)
  unfold ring_buffer_peek
  by_cases h1 : n > cw - r
  · by_cases h2 : n > w - r
    · have hk : min n (w - r) = w - r := by omega
      rw [hk]
      have hs : size_t (w - r) = (w - r).toNat := size_t_eq (by omega) (by omega)
      simp only [e1, e2, h1, h2, decide_True, if_true, Bool.true_and, Bool.and_self,
        memmove_out, hs]
      rw [hsp _ (by omega)]
    · have hk : min n (w - r) = n := by omega
      rw [hk]
      have hs : size_t n = n.toNat := size_t_eq (by omega) (by omega)
      simp only [e1, e2, h1, h2, decide_True, decide_False, if_true, Bool.true_and,
        Bool.and_false, Bool.false_eq_true, if_false, memmove_out, hs]
      rw [hsp _ (by omega)]
  · have hk : min n (w - r) = n := by omega
    rw [hk]
    have hs : size_t n = n.toNat := size_t_eq (by omega) (by omega)
    simp only [e1, e2, h1, decide_False, Bool.false_and,
        Bool.false_eq_true, if_false, memmove_out, hs]
    rw [hsp _ (by omega)]

/-- The sample buffer satisfies the data model for cursors within its bounds. -/
theorem inv_at4096 {w r cr cw : Int} (h0 : 0 ≤ r) (h1 : r ≤ w) (h2 : w ≤ r + 4096)
    (h3 : w ≤ LLONG_MAX) (h4 : is_llong cr) (h5 : is_llong cw) : Inv (at4096 w r cr cw) where
  mapped := rfl
  capacity := ⟨12, rfl⟩
  mask := rfl
  read_nonneg := h0
  read_le_write := h1
  write_le := h2
  count_llong := ⟨by show LLONG_MIN ≤ (4096 : Int); decide, by show (4096 : Int) ≤ LLONG_MAX; decide⟩
  write_llong := ⟨by have : LLONG_MIN = -(2 ^ 63) := rfl; show LLONG_MIN ≤ w; omega, h3⟩
  cached_read_llong := h4
  cached_write_llong := h5

/-- The leading `k` bytes of `data`, once stored, are what is loaded. -/
theorem load_store_take (cells : Nat → Byte) (off k : Nat) (data : List Byte)
    (h1 : k ≤ data.length) :
    loadBytes (storeBytes cells off (data.take k)) off k = data.take k := by
  have hlen : (data.take k).length = k := by rw [List.length_take]; omega
  have h := load_store (data.take k) cells off
  rwa [hlen] at h

/-- What `ring_buffer_count_bytes` returns under the data model. -/
theorem count_bytes_eq {m : Machine} (hI : Inv m) :
    (ring_buffer_count_bytes m.buffer).2
      = m.buffer.write_offset_bytes - m.buffer.read_offset_bytes := by
  have h0 := hI.read_nonneg
  have h1 := hI.read_le_write
  have h2 := hI.write_llong.2
  have hmin : LLONG_MIN = -(2 ^ 63) := rfl
  exact wrap_eq (by omega) (by omega)

/-- What `ring_buffer_count_free_bytes` returns under the data model. -/
theorem count_free_bytes_eq {m : Machine} (hI : Inv m) :
    (ring_buffer_count_free_bytes m.buffer).2
      = m.buffer.count_bytes - (m.buffer.write_offset_bytes - m.buffer.read_offset_bytes) := by
  have h1 := hI.read_le_write
  have h2 := hI.write_le
  have h3 := hI.count_llong.2
  have hmin : LLONG_MIN = -(2 ^ 63) := rfl
  show wrap (m.buffer.count_bytes - (ring_buffer_count_bytes m.buffer).2) = _
  rw [count_bytes_eq hI]
  exact wrap_eq (by omega) (by omega)

/-! ## Steps that keep the data model -/

/-- A write that returns, with the invariants it keeps. -/
theorem write_step (m : Machine) (data : List Byte) (n : Int) (hI : Inv m)
    (hc : m.buffer.cached_read_offset ≤ m.buffer.read_offset_bytes)
    (hn : 0 ≤ n) (hov : m.buffer.write_offset_bytes + n ≤ LLONG_MAX)
    (hroom : m.buffer.read_offset_bytes + m.buffer.count_bytes ≤ LLONG_MAX)
    (hd : min n (m.buffer.count_bytes - (m.buffer.write_offset_bytes - m.buffer.read_offset_bytes))
      ≤ data.length) :
    ∃ (m' : Machine) (cr : Int),
      ring_buffer_write m data n = some (m', min n (m.buffer.count_bytes -
        (m.buffer.write_offset_bytes - m.buffer.read_offset_bytes))) ∧
      Inv m' ∧ cr ≤ m.buffer.read_offset_bytes ∧
      m'.buffer = { m.buffer with
        cached_read_offset := cr
        write_offset_bytes := m.buffer.write_offset_bytes + min n (m.buffer.count_bytes -
          (m.buffer.write_offset_bytes - m.buffer.read_offset_bytes)) } ∧
      m'.cells = storeBytes m.cells
          (m.buffer.write_offset_bytes % m.buffer.count_bytes).toNat
          (data.take (min n (m.buffer.count_bytes -
            (m.buffer.write_offset_bytes - m.buffer.read_offset_bytes))).toNat) := by
  have hmin : LLONG_MIN = -(2 ^ 63) := rfl
  have h0 := hI.read_nonneg
  have h1 := hI.read_le_write
  have h2 := hI.write_le
  obtain ⟨h3, h4⟩ := hI.cached_read_llong
  refine ⟨_, _, write_run hI hc hn hov hroom hd, ?_, ?_, rfl, rfl⟩
  · exact
      { mapped := hI.mapped
        capacity := hI.capacity
        mask := hI.mask
        read_nonneg := h0
        read_le_write := by show m.buffer.read_offset_bytes ≤ _ + _; omega
        write_le := by show _ + _ ≤ m.buffer.read_offset_bytes + m.buffer.count_bytes; omega
        count_llong := hI.count_llong
        write_llong := by
          show LLONG_MIN ≤ _ + _ ∧ _ + _ ≤ LLONG_MAX
          constructor <;> omega
        cached_read_llong := by
          show LLONG_MIN ≤ ite _ _ _ ∧ ite _ _ _ ≤ LLONG_MAX
          split_ifs <;> constructor <;> omega
        cached_write_llong := hI.cached_write_llong }
  · show ite _ _ _ ≤ _
    split_ifs <;> omega

/-- A read that returns, with the invariants it keeps. -/
theorem read_step (m : Machine) (n : Int) (hI : Inv m)
    (hc : m.buffer.cached_write_offset ≤ m.buffer.write_offset_bytes)
    (hn : 0 ≤ n) (hov : m.buffer.read_offset_bytes + n ≤ LLONG_MAX) :
    ∃ (m' : Machine) (cw : Int),
      ring_buffer_read m n = some (m',
        min n (m.buffer.write_offset_bytes - m.buffer.read_offset_bytes),
        loadBytes m.cells
          (m.buffer.read_offset_bytes % m.buffer.count_bytes).toNat
          (min n (m.buffer.write_offset_bytes - m.buffer.read_offset_bytes)).toNat) ∧
      Inv m' ∧ cw ≤ m.buffer.write_offset_bytes ∧
      m'.buffer = { m.buffer with
        cached_write_offset := cw
        read_offset_bytes := m.buffer.read_offset_bytes +
          min n (m.buffer.write_offset_bytes - m.buffer.read_offset_bytes) } ∧
      m'.cells = m.cells := by
  have hmin : LLONG_MIN = -(2 ^ 63) := rfl
  have h0 := hI.read_nonneg
  have h1 := hI.read_le_write
  have h2 := hI.write_le
  obtain ⟨h3, h4⟩ := hI.cached_write_llong
  obtain ⟨h5, h6⟩ := hI.write_llong
  refine ⟨_, _, read_run hI hc hn hov, ?_, ?_, rfl, rfl⟩
  · exact
      { mapped := hI.mapped
        capacity := hI.capacity
        mask := hI.mask
        read_nonneg := by show 0 ≤ _ + _; omega
        read_le_write := by show _ + _ ≤ m.buffer.write_offset_bytes; omega
        write_le := by show m.buffer.write_offset_bytes ≤ _ + _ + m.buffer.count_bytes; omega
        count_llong := hI.count_llong
        write_llong := hI.write_llong
        cached_read_llong := hI.cached_read_llong
        cached_write_llong := by
          show LLONG_MIN ≤ ite _ _ _ ∧ ite _ _ _ ≤ LLONG_MAX
          split_ifs <;> constructor <;> omega }
  · show ite _ _ _ ≤ _
    split_ifs <;> omega

/-- The data model does not read the cells. -/
theorem inv_cells {m : Machine} (hI : Inv m) (f : Nat → Byte) : Inv { m with cells := f } :=
  { mapped := hI.mapped, capacity := hI.capacity, mask := hI.mask, read_nonneg := hI.read_nonneg,
    read_le_write := hI.read_le_write, write_le := hI.write_le, count_llong := hI.count_llong,
    write_llong := hI.write_llong, cached_read_llong := hI.cached_read_llong,
    cached_write_llong := hI.cached_write_llong }

/-- Writing a sequence that fits into a buffer with nothing unread, then
reading as many bytes: both calls return the length, the sequence comes back,
and both cursors have moved by the length. -/
theorem empty_round_trip (m : Machine) (S : List Byte) (hI : Inv m)
    (hcr : m.buffer.cached_read_offset ≤ m.buffer.read_offset_bytes)
    (hcw : m.buffer.cached_write_offset ≤ m.buffer.write_offset_bytes)
    (hempty : m.buffer.read_offset_bytes = m.buffer.write_offset_bytes)
    (hroom : m.buffer.read_offset_bytes + m.buffer.count_bytes ≤ LLONG_MAX)
    (hS : (S.length : Int) ≤ m.buffer.count_bytes) :
    ∃ (m1 m2 : Machine) (cr cw : Int),
      ring_buffer_write m S S.length = some (m1, (S.length : Int)) ∧
      ring_buffer_read m1 S.length = some (m2, (S.length : Int), S) ∧
      Inv m2 ∧ cr ≤ m.buffer.read_offset_bytes ∧ cw ≤ m.buffer.write_offset_bytes + S.length ∧
      m2.buffer = { m.buffer with
        cached_read_offset := cr
        cached_write_offset := cw
        write_offset_bytes := m.buffer.write_offset_bytes + S.length
        read_offset_bytes := m.buffer.read_offset_bytes + S.length } := by
  have h0 := hI.read_nonneg
  have hpos := count_pos hI
  have hk : min (S.length : Int) (m.buffer.count_bytes -
      (m.buffer.write_offset_bytes - m.buffer.read_offset_bytes)) = S.length := by omega
  obtain ⟨m1, cr1, h1, hI1, hcr1, hb1, hc1⟩ :=
    write_step m S S.length hI hcr (Int.natCast_nonneg S.length) (by omega) hroom (by omega)
  rw [hk] at h1 hb1 hc1
  have hk2 : min (S.length : Int) (m1.buffer.write_offset_bytes - m1.buffer.read_offset_bytes)
      = S.length := by rw [hb1]; simp only; omega
  obtain ⟨m2, cw2, h2, hI2, hcw2, hb2, -⟩ :=
    read_step m1 S.length hI1 (by rw [hb1]; simp only; omega) (Int.natCast_nonneg S.length)
      (by rw [hb1]; simp only; omega)
  rw [hk2] at h2 hb2
  refine ⟨m1, m2, cr1, cw2, h1, ?_, hI2, hcr1, ?_, ?_⟩
  · rw [h2, hc1, hb1]
    simp only [Int.toNat_ofNat, List.take_length, hempty]
    rw [load_store]
  · rw [hb1] at hcw2
    exact hcw2
  · rw [hb2, hb1]

/-- What a successful `ring_buffer_create` leaves satisfies the data model,
with all cursors and caches at zero. -/
theorem create_fresh {h : Host} {order : Int} (hc : Created h order) :
    Inv (ring_buffer_create h zeroed order) ∧
    (ring_buffer_create h zeroed order).buffer.write_offset_bytes = 0 ∧
    (ring_buffer_create h zeroed order).buffer.read_offset_bytes = 0 ∧
    (ring_buffer_create h zeroed order).buffer.cached_read_offset = 0 ∧
    (ring_buffer_create h zeroed order).buffer.cached_write_offset = 0 ∧
    (ring_buffer_create h zeroed order).buffer.count_bytes ≤ 2 ^ 61 := by
  obtain ⟨he, k, hk, hr⟩ := create_ok hc
  have hk' := pow_le_61 hk
  have hk0 : (0 : Int) < 2 ^ k := by positivity
  have hmin : LLONG_MIN = -(2 ^ 63) := rfl
  have hmax : LLONG_MAX = 2 ^ 63 - 1 := rfl
  rw [he]
  refine ⟨?_, rfl, rfl, rfl, rfl, ?_⟩
  · exact
      { mapped := rfl
        capacity := ⟨k, hr⟩
        mask := rfl
        read_nonneg := le_refl _
        read_le_write := le_refl _
        write_le := by show (0 : Int) ≤ 0 + round_to_page h.page_size order; omega
        count_llong := by
          show LLONG_MIN ≤ round_to_page h.page_size order ∧ round_to_page h.page_size order ≤ LLONG_MAX
          constructor <;> omega
        write_llong := by show is_llong 0; decide
        cached_read_llong := by show is_llong 0; decide
        cached_write_llong := by show is_llong 0; decide }
  · show round_to_page h.page_size order ≤ 2 ^ 61
    omega

/-- Line 38 for 4096-byte pages and order 12. -/
theorem round4096 : round_to_page 4096 12 = 4096 := by
  have h := @round_to_page_pow 12 12 (by decide) (by decide)
  norm_num at h
  exact h

/-- Every step of the creation succeeds on the sample host. -/
theorem created4096 : Created host4096 12 where
  page := ⟨12, by decide, by decide⟩
  order_nonneg := by decide
  order_le := by decide
  opened := by decide
  reserved := by decide
  first := rfl
  second := by rw [show host4096.page_size = 4096 from rfl, round4096]; decide
  closed := rfl

/-- The creation on the sample host leaves the sample buffer. -/
theorem create4096 : ring_buffer_create host4096 zeroed 12 = fresh4096 := by
  rw [(create_ok created4096).1, show host4096.page_size = 4096 from rfl, round4096]
  rfl

/-- The data model carries over to a struct with the same region and new
cursors and caches within bounds. -/
theorem inv_buffer {m : Machine} (hI : Inv m) (b : ring_buffer) (cells : Nat → Byte)
    (ha : b.address = m.buffer.address) (hC : b.count_bytes = m.buffer.count_bytes)
    (hm : b.count_mask = m.buffer.count_mask)
    (h0 : 0 ≤ b.read_offset_bytes) (h1 : b.read_offset_bytes ≤ b.write_offset_bytes)
    (h2 : b.write_offset_bytes ≤ b.read_offset_bytes + b.count_bytes)
    (h3 : b.write_offset_bytes ≤ LLONG_MAX)
    (h4 : is_llong b.cached_read_offset) (h5 : is_llong b.cached_write_offset) :
    Inv { m with buffer := b, cells := cells } :=
  { mapped := by show m.mapping = some (b.address, b.count_bytes); rw [ha, hC]; exact hI.mapped
    capacity := by show ∃ k : Nat, b.count_bytes = 2 ^ k; rw [hC]; exact hI.capacity
    mask := by show b.count_mask = b.count_bytes - 1; rw [hm, hC]; exact hI.mask
    read_nonneg := h0
    read_le_write := h1
    write_le := h2
    count_llong := by show is_llong b.count_bytes; rw [hC]; exact hI.count_llong
    write_llong := ⟨by have : LLONG_MIN = -(2 ^ 63) := rfl; show LLONG_MIN ≤ b.write_offset_bytes; omega, h3⟩
    cached_read_llong := h4
    cached_write_llong := h5 }

/-- `ring_buffer_write_advance` when neither sum overflows: the write cursor
moves to the smaller of `write + max n 0` and `read + count_bytes`. -/
theorem write_advance_run (b : ring_buffer) (n : Int) (hw : 0 ≤ b.write_offset_bytes)
    (hov : b.write_offset_bytes + max n 0 ≤ LLONG_MAX)
    (hlo : 0 ≤ b.read_offset_bytes + b.count_bytes)
    (hroom : b.read_offset_bytes + b.count_bytes ≤ LLONG_MAX) :
    ring_buffer_write_advance b n =
      { b with
        write_offset_bytes :=
          min (b.write_offset_bytes + max n 0) (b.read_offset_bytes + b.count_bytes) } := by
  have hmin : LLONG_MIN = -(2 ^ 63) := rfl
  have hM : MAX n 0 = max n 0 := by unfold MAX; split_ifs <;> omega
  unfold ring_buffer_write_advance
  simp only [hM]
  rw [wrap_eq (by omega) hov, wrap_eq (by omega) hroom]
  have hm : MIN (b.write_offset_bytes + max n 0) (b.read_offset_bytes + b.count_bytes)
      = min (b.write_offset_bytes + max n 0) (b.read_offset_bytes + b.count_bytes) := by
    unfold MIN; split_ifs <;> omega
  rw [hm]

/-- `ring_buffer_read_advance` when the sum does not overflow: the read cursor
moves to the smaller of `read + max n 0` and the write cursor. -/
theorem read_advance_run (b : ring_buffer) (n : Int) (hr : 0 ≤ b.read_offset_bytes)
    (hov : b.read_offset_bytes + max n 0 ≤ LLONG_MAX) :
    ring_buffer_read_advance b n =
      { b with
        read_offset_bytes := min (b.read_offset_bytes + max n 0) b.write_offset_bytes } := by
  have hmin : LLONG_MIN = -(2 ^ 63) := rfl
  have hM : MAX n 0 = max n 0 := by unfold MAX; split_ifs <;> omega
  unfold ring_buffer_read_advance
  simp only [hM]
  rw [wrap_eq (by omega) hov]
  have hm : MIN (b.read_offset_bytes + max n 0) b.write_offset_bytes
      = min (b.read_offset_bytes + max n 0) b.write_offset_bytes := by
    unfold MIN; split_ifs <;> omega
  rw [hm]

/-- A call that returns, made with a non-negative length that overflows
nothing, keeps the data model and the bounds on the caches, and keeps
`count_bytes`; unless it is the reset, neither cursor moves back. -/
theorem exec_sound {m m' : Machine} {c : Call} (hS : Sound m) (hn : c.nonneg)
    (hf : c.fits m.buffer) (he : exec m c = some m') :
    Sound m' ∧ m'.buffer.count_bytes = m.buffer.count_bytes ∧
      (c ≠ Call.reset →
        m.buffer.read_offset_bytes ≤ m'.buffer.read_offset_bytes ∧
        m.buffer.write_offset_bytes ≤ m'.buffer.write_offset_bytes) := by
  obtain ⟨hI, hcr0, hcr, hcw0, hcw⟩ := hS
  have hmin : LLONG_MIN = -(2 ^ 63) := rfl
  have hmax : LLONG_MAX = 2 ^ 63 - 1 := rfl
  have h0 := hI.read_nonneg
  have h1 := hI.read_le_write
  have h2 := hI.write_le
  have hpos := count_pos hI
  obtain ⟨h3, h4⟩ := hI.write_llong
  cases c with
  | write data n =>
    obtain ⟨hf1, hf2⟩ := hf
    have hn' : 0 ≤ n := hn
    simp only [exec, write_total hI hcr hn' hf1 hf2 data] at he
    by_cases hd : (min n (m.buffer.count_bytes -
        (m.buffer.write_offset_bytes - m.buffer.read_offset_bytes))).toNat ≤ data.length
    · rw [if_pos hd] at he
      simp only [Option.map_some', Option.some.injEq] at he
      subst he
      refine ⟨⟨inv_buffer hI _ _ rfl rfl rfl ?_ ?_ ?_ ?_ ?_ ?_, ?_, ?_, ?_, ?_⟩, rfl, fun _ => ⟨?_, ?_⟩⟩
      all_goals simp only [is_llong]
      all_goals omega
    · rw [if_neg hd] at he
      simp at he
  | read n =>
    have hn' : 0 ≤ n := hn
    have hf' : m.buffer.read_offset_bytes + n ≤ LLONG_MAX := hf
    simp only [exec, read_run hI hcw hn' hf', Option.map_some', Option.some.injEq] at he
    subst he
    refine ⟨⟨inv_buffer hI _ _ rfl rfl rfl ?_ ?_ ?_ ?_ ?_ ?_, ?_, ?_, ?_, ?_⟩, rfl, fun _ => ⟨?_, ?_⟩⟩
    all_goals simp only [is_llong]
    all_goals omega
  | peek n =>
    have hn' : 0 ≤ n := hn
    simp only [exec, peek_run hI hcw0 hcw hn', Option.map_some', Option.some.injEq] at he
    subst he
    refine ⟨⟨inv_buffer hI _ _ rfl rfl rfl ?_ ?_ ?_ ?_ ?_ ?_, ?_, ?_, ?_, ?_⟩, rfl, fun _ => ⟨?_, ?_⟩⟩
    all_goals simp only [is_llong]
    all_goals omega
  | advance_write n =>
    obtain ⟨hf1, hf2⟩ := hf
    have hn' : 0 ≤ n := hn
    have hmx : max n 0 = n := max_eq_left hn'
    simp only [exec, write_advance_run m.buffer n (by omega) (by omega) (by omega) hf2,
      Option.some.injEq, hmx] at he
    subst he
    refine ⟨⟨inv_buffer hI _ _ rfl rfl rfl ?_ ?_ ?_ ?_ ?_ ?_, ?_, ?_, ?_, ?_⟩, rfl, fun _ => ⟨?_, ?_⟩⟩
    all_goals simp only [is_llong]
    all_goals omega
  | advance_read n =>
    have hn' : 0 ≤ n := hn
    have hf' : m.buffer.read_offset_bytes + n ≤ LLONG_MAX := hf
    have hmx : max n 0 = n := max_eq_left hn'
    simp only [exec, read_advance_run m.buffer n (by omega) (by omega),
      Option.some.injEq, hmx] at he
    subst he
    refine ⟨⟨inv_buffer hI _ _ rfl rfl rfl ?_ ?_ ?_ ?_ ?_ ?_, ?_, ?_, ?_, ?_⟩, rfl, fun _ => ⟨?_, ?_⟩⟩
    all_goals simp only [is_llong]
    all_goals omega
  | available_for_read =>
    simp only [exec, Option.some.injEq] at he
    subst he
    refine ⟨⟨inv_buffer hI _ _ rfl rfl rfl ?_ ?_ ?_ ?_ ?_ ?_, ?_, ?_, ?_, ?_⟩, rfl, fun _ => ⟨?_, ?_⟩⟩
    all_goals simp only [is_llong, ring_buffer_count_bytes]
    all_goals omega
  | available_for_write =>
    simp only [exec, Option.some.injEq] at he
    subst he
    refine ⟨⟨inv_buffer hI _ _ rfl rfl rfl ?_ ?_ ?_ ?_ ?_ ?_, ?_, ?_, ?_, ?_⟩, rfl, fun _ => ⟨?_, ?_⟩⟩
    all_goals simp only [is_llong, ring_buffer_count_free_bytes, ring_buffer_count_bytes]
    all_goals omega
  | reset =>
    simp only [exec, Option.some.injEq] at he
    subst he
    refine ⟨⟨inv_buffer hI _ _ rfl rfl rfl ?_ ?_ ?_ ?_ ?_ ?_, ?_, ?_, ?_, ?_⟩, rfl,
      fun hne => absurd rfl hne⟩
    all_goals simp only [is_llong, ring_buffer_clear]
    all_goals omega
  | signal_close =>
    simp only [exec, Option.some.injEq] at he
    subst he
    refine ⟨⟨inv_buffer hI _ _ rfl rfl rfl ?_ ?_ ?_ ?_ ?_ ?_, ?_, ?_, ?_, ?_⟩, rfl, fun _ => ⟨?_, ?_⟩⟩
    all_goals simp only [is_llong, ring_buffer_write_close]
    all_goals omega
  | at_end_of_stream =>
    simp only [exec, Option.some.injEq] at he
    subst he
    exact ⟨⟨hI, hcr0, hcr, hcw0, hcw⟩, rfl, fun _ => ⟨le_refl _, le_refl _⟩⟩

/-- The two availability queries refresh both caches and nothing else, and
keep the data model. -/
theorem query_step {m : Machine} (hI : Inv m) :
    Inv { m with buffer := (ring_buffer_count_free_bytes (ring_buffer_count_bytes m.buffer).1).1 } ∧
    (ring_buffer_count_free_bytes (ring_buffer_count_bytes m.buffer).1).1 =
      { m.buffer with
        cached_write_offset := m.buffer.write_offset_bytes
        cached_read_offset := m.buffer.read_offset_bytes } ∧
    (ring_buffer_count_free_bytes (ring_buffer_count_bytes m.buffer).1).2 =
      m.buffer.count_bytes - (m.buffer.write_offset_bytes - m.buffer.read_offset_bytes) := by
  have hmin : LLONG_MIN = -(2 ^ 63) := rfl
  have h0 := hI.read_nonneg
  have h1 := hI.read_le_write
  have h2 := hI.write_le
  obtain ⟨h3, h4⟩ := hI.write_llong
  refine ⟨?_, rfl, count_free_bytes_eq hI⟩
  have := inv_buffer hI (ring_buffer_count_free_bytes (ring_buffer_count_bytes m.buffer).1).1 m.cells
    rfl rfl rfl h0 h1 h2 h4 ⟨by show LLONG_MIN ≤ m.buffer.read_offset_bytes; omega,
      by show m.buffer.read_offset_bytes ≤ LLONG_MAX; omega⟩ ⟨h3, h4⟩
  exact this

/-- A read whose length makes `read_offset + count_bytes` overflow is not
truncated; when the length exceeds the doubled region, `memmove` leaves it. -/
theorem read_overflow_none {m : Machine} (hI : Inv m) (hcw : 0 ≤ m.buffer.cached_write_offset)
    {n : Int} (hn : n ≤ LLONG_MAX) (hov : LLONG_MAX < m.buffer.read_offset_bytes + n)
    (hlong : 2 * m.buffer.count_bytes < n) : ring_buffer_read m n = none := by
  have hmin : LLONG_MIN = -(2 ^ 63) := rfl
  have hmax : LLONG_MAX = 2 ^ 63 - 1 := rfl
  have h0 := hI.read_nonneg
  have h1 := hI.read_le_write
  obtain ⟨h3, h4⟩ := hI.write_llong
  have hpos := count_pos hI
  obtain ⟨k, hk⟩ := hI.capacity
  have hland : Int.land m.buffer.count_mask m.buffer.read_offset_bytes
      = m.buffer.read_offset_bytes % m.buffer.count_bytes := by
    rw [hI.mask, hk, land_mask k h0]
  have hm0 := Int.emod_nonneg m.buffer.read_offset_bytes (ne_of_gt hpos)
  have hw : wrap (m.buffer.read_offset_bytes + n) = m.buffer.read_offset_bytes + n - 2 ^ 64 := by
    unfold wrap
    omega
  have hfirst : ¬ wrap (m.buffer.read_offset_bytes + n) > m.buffer.cached_write_offset := by
    rw [hw]; omega
  have hs : size_t n = n.toNat := size_t_eq (by omega) hn
  unfold ring_buffer_read
  simp only [hfirst, decide_False, Bool.false_and, Bool.false_eq_true, if_false, memmove_out, hs,
    span, hI.mapped, hland]
  rw [if_neg (by omega), if_neg (by omega)]

/-- The concrete scenario of spec section 8 on a fresh buffer of 4096 bytes, up
to the read that empties it; the availability queries run where the scenario
asks them. -/
theorem scenario_run {h : Host} (hc : Created h 12) (hp : h.page_size = 4096) :
    ∃ m1 m2 m3 : Machine,
      ring_buffer_write (ring_buffer_create h zeroed 12) (List.replicate 4000 65) 4000
        = some (m1, 4000) ∧
      (ring_buffer_count_bytes m1.buffer).2 = 4000 ∧
      (ring_buffer_count_free_bytes (ring_buffer_count_bytes m1.buffer).1).2 = 96 ∧
      ring_buffer_write
          { m1 with buffer := (ring_buffer_count_free_bytes (ring_buffer_count_bytes m1.buffer).1).1 }
          (List.replicate 200 66) 200
        = some (m2, 96) ∧
      (ring_buffer_count_bytes m2.buffer).2 = 4096 ∧
      ring_buffer_read { m2 with buffer := (ring_buffer_count_bytes m2.buffer).1 } 4096
        = some (m3, 4096, List.replicate 4000 65 ++ List.replicate 96 66) ∧
      Sound m3 ∧ m3.buffer.read_offset_bytes = 4096 ∧ m3.buffer.write_offset_bytes = 4096 ∧
      m3.buffer.count_bytes = 4096 := by
  obtain ⟨hI0, hw0, hr0, hcr0, hcw0, -⟩ := create_fresh hc
  have hC0 : (ring_buffer_create h zeroed 12).buffer.count_bytes = 4096 := by
    rw [(create_ok hc).1, hp]
    exact round4096
  generalize ring_buffer_create h zeroed 12 = m0 at *
  have hmax : LLONG_MAX = 2 ^ 63 - 1 := rfl
  -- the first write
  obtain ⟨m1, cr1, h1, hI1, hcr1, hb1, hc1⟩ :=
    write_step m0 (List.replicate 4000 65) 4000 hI0 (by omega) (by omega) (by omega) (by omega)
      (by rw [List.length_replicate]; omega)
  have hk1 : min (4000 : Int) (m0.buffer.count_bytes -
      (m0.buffer.write_offset_bytes - m0.buffer.read_offset_bytes)) = 4000 := by omega
  rw [hk1] at h1 hb1 hc1
  have w1 : m1.buffer.write_offset_bytes = 4000 := by rw [hb1]; simp only; omega
  have r1 : m1.buffer.read_offset_bytes = 0 := by rw [hb1]; exact hr0
  have C1 : m1.buffer.count_bytes = 4096 := by rw [hb1]; exact hC0
  -- the queries
  obtain ⟨hIq1, hbq1, hfree1⟩ := query_step hI1
  have hav1 := count_bytes_eq hI1
  -- the second write
  obtain ⟨m2, cr2, h2, hI2, hcr2, hb2, hc2⟩ :=
    write_step _ (List.replicate 200 66) 200 hIq1 (by rw [hbq1]) (by omega)
      (by rw [hbq1]; simp only; omega) (by rw [hbq1]; simp only; omega)
      (by rw [hbq1, List.length_replicate]; simp only; omega)
  simp only [hbq1] at h2 hb2 hc2 hcr2
  have hk2 : min (200 : Int) (m1.buffer.count_bytes -
      (m1.buffer.write_offset_bytes - m1.buffer.read_offset_bytes)) = 96 := by omega
  rw [hk2] at h2 hb2 hc2
  have w2 : m2.buffer.write_offset_bytes = 4096 := by rw [hb2]; simp only; omega
  have r2 : m2.buffer.read_offset_bytes = 0 := by rw [hb2]; exact r1
  have C2 : m2.buffer.count_bytes = 4096 := by rw [hb2]; exact C1
  have hav2 := count_bytes_eq hI2
  -- the read
  have hIq2 : Inv { m2 with buffer := (ring_buffer_count_bytes m2.buffer).1 } :=
    (query_step hI2).1
  obtain ⟨m3, cw3, h3, hI3, hcw3, hb3, hc3⟩ :=
    read_step _ 4096 hIq2 (le_refl _) (by omega) (by show m2.buffer.read_offset_bytes + 4096 ≤ _; omega)
  have hk3 : min (4096 : Int)
      (({ m2 with buffer := (ring_buffer_count_bytes m2.buffer).1 } : Machine).buffer.write_offset_bytes -
        ({ m2 with buffer := (ring_buffer_count_bytes m2.buffer).1 } : Machine).buffer.read_offset_bytes)
        = 4096 := by
    show min (4096 : Int) (m2.buffer.write_offset_bytes - m2.buffer.read_offset_bytes) = 4096
    omega
  rw [hk3] at h3 hb3
  refine ⟨m1, m2, m3, h1, by omega, by omega, h2, by omega, ?_, ?_, ?_, ?_, ?_⟩
  · rw [h3]
    have e1 : loadBytes
        ({ m2 with buffer := (ring_buffer_count_bytes m2.buffer).1 } : Machine).cells
        (({ m2 with buffer := (ring_buffer_count_bytes m2.buffer).1 } :
          Machine).buffer.read_offset_bytes %
          ({ m2 with buffer := (ring_buffer_count_bytes m2.buffer).1 } :
            Machine).buffer.count_bytes).toNat (4096 : Int).toNat
        = List.replicate 4000 65 ++ List.replicate 96 66 := by
      show loadBytes m2.cells
        (m2.buffer.read_offset_bytes % m2.buffer.count_bytes).toNat (4096 : Int).toNat = _
      rw [hc2, hc1, C2, r2, C1, w1, hC0, hw0]
      have t1 : List.take (4000 : Int).toNat (List.replicate 4000 (65 : Byte))
          = List.replicate 4000 65 := by
        rw [List.take_replicate]; rfl
      have t2 : List.take (96 : Int).toNat (List.replicate 200 (66 : Byte))
          = List.replicate 96 66 := by
        rw [List.take_replicate]; rfl
      rw [t1, t2]
      have := load_store_after (List.replicate 96 66)
        (storeBytes m0.cells 0 (List.replicate 4000 65)) 0 4000
      rw [List.length_replicate] at this
      have l0 := load_store (List.replicate 4000 65) m0.cells 0
      rw [List.length_replicate] at l0
      rw [l0] at this
      exact this
    rw [e1]
  · have hS2 : Sound { m2 with buffer := (ring_buffer_count_bytes m2.buffer).1 } :=
      ⟨hIq2, by show 0 ≤ m2.buffer.read_offset_bytes; omega, le_refl _,
        by show 0 ≤ m2.buffer.write_offset_bytes; omega, le_refl _⟩
    have he : exec { m2 with buffer := (ring_buffer_count_bytes m2.buffer).1 } (Call.read 4096)
        = some m3 := by
      show (ring_buffer_read _ 4096).map Prod.fst = some m3
      rw [h3]
      rfl
    exact (exec_sound hS2 (by show (0 : Int) ≤ 4096; decide)
      (by show m2.buffer.read_offset_bytes + 4096 ≤ LLONG_MAX; omega) he).1
  · rw [hb3]; show m2.buffer.read_offset_bytes + 4096 = 4096; omega
  · rw [hb3]; exact w2
  · rw [hb3]; exact C2

/-- A peek that returns, with the invariants it keeps: only the cached write
offset may change. -/
theorem peek_step (m : Machine) (n : Int) (hI : Inv m)
    (hc0 : 0 ≤ m.buffer.cached_write_offset)
    (hc : m.buffer.cached_write_offset ≤ m.buffer.write_offset_bytes) (hn : 0 ≤ n) :
    ∃ (m' : Machine) (cw : Int),
      ring_buffer_peek m n = some (m',
        min n (m.buffer.write_offset_bytes - m.buffer.read_offset_bytes),
        loadBytes m.cells
          (m.buffer.read_offset_bytes % m.buffer.count_bytes).toNat
          (min n (m.buffer.write_offset_bytes - m.buffer.read_offset_bytes)).toNat) ∧
      Inv m' ∧ 0 ≤ cw ∧ cw ≤ m.buffer.write_offset_bytes ∧
      m'.buffer = { m.buffer with cached_write_offset := cw } ∧
      m'.cells = m.cells := by
  have hmin : LLONG_MIN = -(2 ^ 63) := rfl
  have h0 := hI.read_nonneg
  have h1 := hI.read_le_write
  obtain ⟨h3, h4⟩ := hI.cached_write_llong
  obtain ⟨h5, h6⟩ := hI.write_llong
  refine ⟨_, _, peek_run hI hc0 hc hn, ?_, ?_, ?_, rfl, rfl⟩
  · exact
      { mapped := hI.mapped
        capacity := hI.capacity
        mask := hI.mask
        read_nonneg := h0
        read_le_write := h1
        write_le := hI.write_le
        count_llong := hI.count_llong
        write_llong := hI.write_llong
        cached_read_llong := hI.cached_read_llong
        cached_write_llong := by
          show LLONG_MIN ≤ ite _ _ _ ∧ ite _ _ _ ≤ LLONG_MAX
          split_ifs <;> constructor <;> omega }
  · show 0 ≤ ite _ _ _
    split_ifs <;> omega
  · show ite _ _ _ ≤ _
    split_ifs <;> omega

/-- Every state reached from a successful creation by fitting calls satisfies
the data model, with the caches between zero and the cursors. -/
theorem reach_sound {h : Host} {order : Int} {m : Machine}
    (hR : Reach fitting_call h order m) : Sound m := by
  induction hR with
  | created hc =>
    obtain ⟨hI, hw, hr, hcr, hcw, -⟩ := create_fresh hc
    exact ⟨hI, by omega, by omega, by omega, by omega⟩
  | call c _ hok he ih => exact (exec_sound ih hok.1 hok.2 he).1

/-! ## C1: truncation law for write -/

/-- C1, as amended: for a buffer state satisfying the data-model invariants with
`cached_read_offset ≤ read_offset_bytes`, and a length `n ≥ 0` for which neither
`write_offset_bytes + n` nor `read_offset_bytes + count_bytes` exceeds
`LLONG_MAX`, `ring_buffer_write (data, n)` returns `min n free`, where `free` is
what `ring_buffer_count_free_bytes` returns on the state at call time; it
advances the write cursor by exactly that amount, the bytes found at the old
write address afterwards are that many leading bytes of `data`, and no other
cell changes. -/
theorem write_truncation (m : Machine) (data : List Byte) (n : Int) (hI : Inv m)
    (hc : m.buffer.cached_read_offset ≤ m.buffer.read_offset_bytes) (hn : 0 ≤ n)
    (hov : m.buffer.write_offset_bytes + n ≤ LLONG_MAX)
    (hroom : m.buffer.read_offset_bytes + m.buffer.count_bytes ≤ LLONG_MAX)
    (hd : min n (ring_buffer_count_free_bytes m.buffer).2 ≤ data.length) :
    ∃ (m' : Machine) (k : Int),
      k = min n (ring_buffer_count_free_bytes m.buffer).2 ∧
      ring_buffer_write m data n = some (m', k) ∧
      m'.buffer.write_offset_bytes = m.buffer.write_offset_bytes + k ∧
      m'.buffer.read_offset_bytes = m.buffer.read_offset_bytes ∧
      memmove_out m' (ring_buffer_write_address m.buffer) k = some (data.take k.toNat) ∧
      ∀ c : Nat,
        (∀ i : Nat, i < k.toNat →
          (m.buffer.write_offset_bytes % m.buffer.count_bytes).toNat + i ≠ c) →
        m'.cells c = m.cells c := by
  rw [count_free_bytes_eq hI] at hd ⊢
  have hrun := write_run hI hc hn hov hroom hd
  have h0 := hI.read_nonneg
  have h1 := hI.read_le_write
  have h2 := hI.write_le
  have h3 := hI.count_llong.2
  have hpos := count_pos hI
  refine ⟨_, _, rfl, hrun, rfl, rfl, ?_, ?_⟩
  · have hk0 : 0 ≤ min n (m.buffer.count_bytes -
        (m.buffer.write_offset_bytes - m.buffer.read_offset_bytes)) := by omega
    have hsp : span m (m.buffer.address + Int.land m.buffer.count_mask m.buffer.write_offset_bytes)
        (min n (m.buffer.count_bytes -
          (m.buffer.write_offset_bytes - m.buffer.read_offset_bytes))).toNat = _ :=
      span_cursor hI (le_trans h0 h1) (by omega)
    unfold memmove_out ring_buffer_write_address
    rw [size_t_eq hk0 (by omega)]
    unfold span at hsp ⊢
    simp only at hsp ⊢
    rw [hsp]
    simp only
    congr 1
    exact load_store_take _ _ _ _ (by omega)
  · intro c hc'
    apply storeBytes_other
    intro i hi
    apply hc'
    rw [List.length_take] at hi
    omega


/-- C1 fails as stated, on three inputs that satisfy its hypotheses.
(1) One byte is free (write cursor 4095, read cursor 0, capacity 4096) and the
length asked is `LLONG_MAX`: `write_offset + count_bytes` wraps below zero, the
comparison of line 150 is false, the length is not truncated and `memmove` is
asked for `LLONG_MAX` bytes, which leaves the mapped region; C1 asks for the
value 1.
(2) One byte is free with the write cursor at `LLONG_MAX - 1` and two bytes are
offered: the same sum wraps, both bytes are copied, 2 is returned where C1
asks for 1, and the write cursor becomes `LLONG_MIN`.
(3) The buffer is empty with both cursors at `LLONG_MAX - 1` and the length is
0: `count_bytes + read_offset` wraps, both comparisons hold and the length
becomes 4096, more than `data` holds; C1 asks for the value 0. -/
theorem write_truncation_overflow :
    (Inv (at4096 4095 0 0 0) ∧
      (at4096 4095 0 0 0).buffer.cached_read_offset ≤ (at4096 4095 0 0 0).buffer.read_offset_bytes ∧
      0 ≤ LLONG_MAX ∧
      min LLONG_MAX (ring_buffer_count_free_bytes (at4096 4095 0 0 0).buffer).2 = 1 ∧
      wrap ((at4096 4095 0 0 0).buffer.write_offset_bytes + LLONG_MAX) = -9223372036854771714 ∧
      (ring_buffer_write (at4096 4095 0 0 0) [66] LLONG_MAX).map Prod.snd = none) ∧
    (Inv (at4096 (LLONG_MAX - 1) (LLONG_MAX - 4096) (LLONG_MAX - 4096) 0) ∧
      min 2 (ring_buffer_count_free_bytes
        (at4096 (LLONG_MAX - 1) (LLONG_MAX - 4096) (LLONG_MAX - 4096) 0).buffer).2 = 1 ∧
      (ring_buffer_write (at4096 (LLONG_MAX - 1) (LLONG_MAX - 4096) (LLONG_MAX - 4096) 0)
        [65, 66] 2).map (fun a => (a.1.buffer.write_offset_bytes, a.2)) = some (LLONG_MIN, 2)) ∧
    (Inv (at4096 (LLONG_MAX - 1) (LLONG_MAX - 1) (LLONG_MAX - 1) 0) ∧
      min 0 (ring_buffer_count_free_bytes
        (at4096 (LLONG_MAX - 1) (LLONG_MAX - 1) (LLONG_MAX - 1) 0).buffer).2 = 0 ∧
      wrap (wrap (LLONG_MAX - 1 + 4096) - (LLONG_MAX - 1)) = 4096 ∧
      (ring_buffer_write (at4096 (LLONG_MAX - 1) (LLONG_MAX - 1) (LLONG_MAX - 1) 0)
        [] 0).map Prod.snd = none) :=
  ⟨⟨inv_at4096 (by decide) (by decide) (by decide) (by decide) (by decide) (by decide),
      by decide, by decide, by decide, by decide, by decide⟩,
    ⟨inv_at4096 (by decide) (by decide) (by decide) (by decide) (by decide) (by decide),
      by decide, by decide⟩,
    ⟨inv_at4096 (by decide) (by decide) (by decide) (by decide) (by decide) (by decide),
      by decide, by decide, by decide⟩⟩

/-- C1 (amended) at a sample input: three bytes offered with two free. -/
theorem write_truncation_witness :
    ∃ m' : Machine,
      ring_buffer_write (at4096 4094 0 0 0) [65, 66, 67] 3 = some (m', 2) ∧
      m'.buffer.write_offset_bytes = 4096 ∧
      memmove_out m' (ring_buffer_write_address (at4096 4094 0 0 0).buffer) 2 = some [65, 66] := by
  obtain ⟨m', k, hk, hw, hwo, _, hout, _⟩ :=
    write_truncation (at4096 4094 0 0 0) [65, 66, 67] 3
      (inv_at4096 (by decide) (by decide) (by decide) (by decide) (by decide) (by decide))
      (by decide) (by decide) (by decide) (by decide) (by decide)
  have hk2 : k = 2 := by rw [hk]; decide
  subst hk2
  exact ⟨m', hw, hwo, hout⟩

/-! ## C2: truncation law for read -/

/-- C2, as amended: for a buffer state satisfying the data-model invariants with
`cached_write_offset ≤ write_offset_bytes`, and a length `n ≥ 0` for which
`read_offset_bytes + n` does not exceed `LLONG_MAX`, `ring_buffer_read (data, n)`
returns `min n avail`, where `avail` is what `ring_buffer_count_bytes` returns on
the state at call time, hands out that many bytes, and advances the read cursor
by exactly that amount, leaving the write cursor and the cells alone. -/
theorem read_truncation (m : Machine) (n : Int) (hI : Inv m)
    (hc : m.buffer.cached_write_offset ≤ m.buffer.write_offset_bytes) (hn : 0 ≤ n)
    (hov : m.buffer.read_offset_bytes + n ≤ LLONG_MAX) :
    ∃ (m' : Machine) (k : Int) (out : List Byte),
      k = min n (ring_buffer_count_bytes m.buffer).2 ∧
      ring_buffer_read m n = some (m', k, out) ∧
      m'.buffer.read_offset_bytes = m.buffer.read_offset_bytes + k ∧
      m'.buffer.write_offset_bytes = m.buffer.write_offset_bytes ∧
      m'.cells = m.cells ∧
      (out.length : Int) = k := by
  rw [count_bytes_eq hI]
  have h1 := hI.read_le_write
  refine ⟨_, _, _, rfl, read_run hI hc hn hov, rfl, rfl, rfl, ?_⟩
  rw [loadBytes_length]
  omega

/-- C2 fails as stated, on two inputs that satisfy its hypotheses.
(1) The buffer is empty with both cursors at 1 and the length asked is
`LLONG_MAX`: `read_offset + count_bytes` wraps to `LLONG_MIN`, the comparison
of line 164 is false, the length is not truncated and `memmove` is asked for
`LLONG_MAX` bytes, which leaves the mapped region; C2 asks for the value 0.
(2) One byte is unread with the read cursor at `LLONG_MAX - 1` and two bytes
are asked: the same sum wraps, two bytes are handed out and 2 is returned
where C2 asks for 1, and the read cursor becomes `LLONG_MIN`. -/
theorem read_truncation_overflow :
    (Inv (at4096 1 1 1 1) ∧
      (at4096 1 1 1 1).buffer.cached_write_offset ≤ (at4096 1 1 1 1).buffer.write_offset_bytes ∧
      0 ≤ LLONG_MAX ∧
      min LLONG_MAX (ring_buffer_count_bytes (at4096 1 1 1 1).buffer).2 = 0 ∧
      wrap ((at4096 1 1 1 1).buffer.read_offset_bytes + LLONG_MAX) = LLONG_MIN ∧
      (ring_buffer_read (at4096 1 1 1 1) LLONG_MAX).map (fun r => r.2.1) = none) ∧
    (Inv (at4096 LLONG_MAX (LLONG_MAX - 1) 0 LLONG_MAX) ∧
      min 2 (ring_buffer_count_bytes (at4096 LLONG_MAX (LLONG_MAX - 1) 0 LLONG_MAX).buffer).2 = 1 ∧
      (ring_buffer_read (at4096 LLONG_MAX (LLONG_MAX - 1) 0 LLONG_MAX) 2).map
        (fun a => (a.1.buffer.read_offset_bytes, a.2.1)) = some (LLONG_MIN, 2)) :=
  ⟨⟨inv_at4096 (by decide) (by decide) (by decide) (by decide) (by decide) (by decide),
      by decide, by decide, by decide, by decide, by decide⟩,
    ⟨inv_at4096 (by decide) (by decide) (by decide) (by decide) (by decide) (by decide),
      by decide, by decide⟩⟩

/-- C2 (amended) at a sample input: five bytes asked with three unread. -/
theorem read_truncation_witness :
    ∃ (m' : Machine) (out : List Byte),
      ring_buffer_read (at4096 7 4 0 0) 5 = some (m', 3, out) ∧
      m'.buffer.read_offset_bytes = 7 ∧ out.length = 3 := by
  obtain ⟨m', k, out, hk, hr, hro, _, _, hlen⟩ :=
    read_truncation (at4096 7 4 0 0) 5
      (inv_at4096 (by decide) (by decide) (by decide) (by decide) (by decide) (by decide))
      (by decide) (by decide) (by decide)
  have hk3 : k = 3 := by rw [hk]; decide
  subst hk3
  exact ⟨m', out, hr, hro, by exact_mod_cast hlen⟩

/-! ## C3: round trip -/

/-- C3, as amended: for a buffer state satisfying the data-model invariants
that holds no unread byte (`read_offset_bytes = write_offset_bytes`), with the
caches not ahead of the cursors and `read_offset_bytes + count_bytes ≤
LLONG_MAX`, and a byte sequence `S` of length `n ≤ available_for_write ()`,
`ring_buffer_write (S, n)` followed by `ring_buffer_read (out, n)` returns `n`
from both calls and leaves `out` equal to `S`. -/
theorem round_trip_empty (m : Machine) (S : List Byte) (hI : Inv m)
    (hcr : m.buffer.cached_read_offset ≤ m.buffer.read_offset_bytes)
    (hcw : m.buffer.cached_write_offset ≤ m.buffer.write_offset_bytes)
    (hempty : m.buffer.read_offset_bytes = m.buffer.write_offset_bytes)
    (hroom : m.buffer.read_offset_bytes + m.buffer.count_bytes ≤ LLONG_MAX)
    (hS : (S.length : Int) ≤ (ring_buffer_count_free_bytes m.buffer).2) :
    ∃ m1 m2 : Machine,
      ring_buffer_write m S S.length = some (m1, (S.length : Int)) ∧
      ring_buffer_read m1 S.length = some (m2, (S.length : Int), S) := by
  rw [count_free_bytes_eq hI] at hS
  obtain ⟨m1, m2, -, -, h1, h2, -⟩ :=
    empty_round_trip m S hI hcr hcw hempty hroom (by omega)
  exact ⟨m1, m2, h1, h2⟩

/-- C3 fails as stated, on two inputs that satisfy its hypotheses.
(1) The buffer holds one unread byte, 65; the sequence `[66]` of length 1 fits
the free space; the write and the read both return 1, and the read hands out
the older byte 65, not 66.
(2) The buffer is empty with both cursors at `LLONG_MAX - 1`; the sequence
`[65]` fits, but `count_bytes + read_offset` wraps in the write, the length
becomes 4096, more than the sequence holds, and the write does not return 1. -/
theorem round_trip_unread :
    (Inv unread4096 ∧
      unread4096.buffer.cached_read_offset ≤ unread4096.buffer.read_offset_bytes ∧
      unread4096.buffer.cached_write_offset ≤ unread4096.buffer.write_offset_bytes ∧
      (1 : Int) ≤ (ring_buffer_count_free_bytes unread4096.buffer).2 ∧
      ((ring_buffer_write unread4096 [66] 1).bind fun a =>
        (ring_buffer_read a.1 1).map fun b => (a.2, b.2)) = some (1, 1, [65])) ∧
    (Inv (at4096 (LLONG_MAX - 1) (LLONG_MAX - 1) (LLONG_MAX - 1) 0) ∧
      (1 : Int) ≤ (ring_buffer_count_free_bytes
        (at4096 (LLONG_MAX - 1) (LLONG_MAX - 1) (LLONG_MAX - 1) 0).buffer).2 ∧
      (ring_buffer_write (at4096 (LLONG_MAX - 1) (LLONG_MAX - 1) (LLONG_MAX - 1) 0)
        [65] 1).map Prod.snd = none) :=
  ⟨⟨inv_cells
        (inv_at4096 (by decide) (by decide) (by decide) (by decide) (by decide) (by decide)) _,
      by decide, by decide, by decide, by decide⟩,
    ⟨inv_at4096 (by decide) (by decide) (by decide) (by decide) (by decide) (by decide),
      by decide, by decide⟩⟩

/-- C3 (amended) at a sample input: three bytes through an empty buffer whose
cursors stand at 4094, so that the copy crosses the end of the first half of
the region. -/
theorem round_trip_empty_witness :
    ∃ m1 m2 : Machine,
      ring_buffer_write (at4096 4094 4094 0 0) [65, 66, 67] 3 = some (m1, 3) ∧
      ring_buffer_read m1 3 = some (m2, 3, [65, 66, 67]) :=
  round_trip_empty (at4096 4094 4094 0 0) [65, 66, 67]
    (inv_at4096 (by decide) (by decide) (by decide) (by decide) (by decide) (by decide))
    (by decide) (by decide) (by decide) (by decide) (by decide)

/-- One byte read from an address inside the mapped region. -/
theorem memmove_out_one {m : Machine} (hI : Inv m) (x : Nat)
    (hx : (x : Int) < 2 * m.buffer.count_bytes) :
    memmove_out m (m.buffer.address + x) 1 = some [m.cells x] := by
  unfold memmove_out span
  rw [hI.mapped]
  have hs : size_t 1 = 1 := by decide
  simp only [hs]
  rw [if_pos (by constructor <;> push_cast <;> omega)]
  simp [loadBytes]

/-- The scenario of spec section 8 for the wraparound, with `k = 1`, on a
fresh buffer of 4096 bytes: 4095 bytes of value 7 go through, then the bytes
1, 2 are written at offset 4095 of the region; they are read back in one call
and in two. -/
theorem wrap_run {h : Host} (hc : Created h 12) (hp : h.page_size = 4096) :
    ∃ m1 m2 m3 m4 m5 : Machine,
      ring_buffer_write (ring_buffer_create h zeroed 12) (List.replicate 4095 7) 4095
        = some (m1, 4095) ∧
      ring_buffer_read m1 4095 = some (m2, 4095, List.replicate 4095 7) ∧
      ring_buffer_write_address m2.buffer = m2.buffer.address + 4095 ∧
      ring_buffer_write m2 [1, 2] 2 = some (m3, 2) ∧
      memmove_out m3 (m3.buffer.address + 4095) 1 = some [1] ∧
      memmove_out m3 (m3.buffer.address + 4096) 1 = some [2] ∧
      memmove_out m3 m3.buffer.address 1 = some [7] ∧
      (ring_buffer_read m3 2).map (fun a => a.2) = some (2, [1, 2]) ∧
      ring_buffer_read m3 1 = some (m4, 1, [1]) ∧
      ring_buffer_read_address m4.buffer = m4.buffer.address ∧
      ring_buffer_read m4 1 = some (m5, 1, [7]) := by
  obtain ⟨hI0, hw0, hr0, hcr0, hcw0, -⟩ := create_fresh hc
  have hC0 : (ring_buffer_create h zeroed 12).buffer.count_bytes = 4096 := by
    rw [(create_ok hc).1, hp]
    exact round4096
  have hcells0 : (ring_buffer_create h zeroed 12).cells = fun _ => 0 := by
    rw [(create_ok hc).1]
  generalize ring_buffer_create h zeroed 12 = m0 at *
  have hmax : LLONG_MAX = 2 ^ 63 - 1 := rfl
  -- 4095 bytes are written
  obtain ⟨m1, cr1, h1, hI1, hcr1, hb1, hc1⟩ :=
    write_step m0 (List.replicate 4095 7) 4095 hI0 (by omega) (by omega) (by omega) (by omega)
      (by rw [List.length_replicate]; omega)
  have hk1 : min (4095 : Int) (m0.buffer.count_bytes -
      (m0.buffer.write_offset_bytes - m0.buffer.read_offset_bytes)) = 4095 := by omega
  rw [hk1] at h1 hb1 hc1
  have w1 : m1.buffer.write_offset_bytes = 4095 := by rw [hb1]; simp only; omega
  have r1 : m1.buffer.read_offset_bytes = 0 := by rw [hb1]; exact hr0
  have C1 : m1.buffer.count_bytes = 4096 := by rw [hb1]; exact hC0
  have cw1 : m1.buffer.cached_write_offset = 0 := by rw [hb1]; exact hcw0
  have t1 : List.take (4095 : Int).toNat (List.replicate 4095 (7 : Byte))
      = 7 :: List.replicate 4094 7 := by
    rw [List.take_replicate]; rfl
  have o1 : (m0.buffer.write_offset_bytes % m0.buffer.count_bytes).toNat = 0 := by
    rw [hw0, hC0]; rfl
  rw [t1, o1, hcells0] at hc1
  -- and read
  obtain ⟨m2, cw2, h2, hI2, hcw2, hb2, hc2⟩ :=
    read_step m1 4095 hI1 (by omega) (by omega) (by omega)
  have hk2 : min (4095 : Int) (m1.buffer.write_offset_bytes - m1.buffer.read_offset_bytes)
      = 4095 := by omega
  rw [hk2] at h2 hb2
  have o2 : (m1.buffer.read_offset_bytes % m1.buffer.count_bytes).toNat = 0 := by
    rw [r1, C1]; rfl
  have l2 : loadBytes m1.cells 0 (4095 : Int).toNat = List.replicate 4095 7 := by
    rw [hc1]
    have := load_store (7 :: List.replicate 4094 7) (fun _ => (0 : Byte)) 0
    rw [List.length_cons, List.length_replicate] at this
    exact this
  rw [o2, l2] at h2
  have w2 : m2.buffer.write_offset_bytes = 4095 := by rw [hb2]; exact w1
  have r2 : m2.buffer.read_offset_bytes = 4095 := by rw [hb2]; simp only; omega
  have C2 : m2.buffer.count_bytes = 4096 := by rw [hb2]; exact C1
  have cr2 : m2.buffer.cached_read_offset ≤ m2.buffer.read_offset_bytes := by
    rw [hb2]; simp only
    rw [hb1]; simp only
    omega
  -- the two bytes of `T` are written across the end of the first half
  obtain ⟨m3, cr3, h3, hI3, hcr3, hb3, hc3⟩ :=
    write_step m2 [1, 2] 2 hI2 cr2 (by omega) (by omega) (by omega)
      (by simp only [List.length_cons, List.length_nil]; omega)
  have hk3 : min (2 : Int) (m2.buffer.count_bytes -
      (m2.buffer.write_offset_bytes - m2.buffer.read_offset_bytes)) = 2 := by omega
  rw [hk3] at h3 hb3 hc3
  have o3 : (m2.buffer.write_offset_bytes % m2.buffer.count_bytes).toNat = 4095 := by
    rw [w2, C2]; rfl
  have t3 : List.take (2 : Int).toNat ([1, 2] : List Byte) = [1, 2] := rfl
  rw [o3, t3, hc2, hc1] at hc3
  have w3 : m3.buffer.write_offset_bytes = 4097 := by rw [hb3]; simp only; omega
  have r3 : m3.buffer.read_offset_bytes = 4095 := by rw [hb3]; exact r2
  have C3 : m3.buffer.count_bytes = 4096 := by rw [hb3]; exact C2
  have cw3 : m3.buffer.cached_write_offset ≤ m3.buffer.write_offset_bytes := by
    rw [hb3]; simp only
    rw [hb2]; simp only
    omega
  have c4095 : m3.cells 4095 = 1 := by
    rw [hc3]; exact storeBytes_head _ _ _ _
  have c4096 : m3.cells 4096 = 2 := by
    rw [hc3]; exact storeBytes_second _ 4095 _ _ _
  have c0 : m3.cells 0 = 7 := by
    rw [hc3, storeBytes_other]
    · exact storeBytes_head _ _ _ _
    · intro i _
      omega
  -- read back in one call, and in two
  obtain ⟨m4', cw4', h4', -⟩ := read_step m3 2 hI3 cw3 (by omega) (by omega)
  have hk4' : min (2 : Int) (m3.buffer.write_offset_bytes - m3.buffer.read_offset_bytes)
      = 2 := by omega
  have o4 : (m3.buffer.read_offset_bytes % m3.buffer.count_bytes).toNat = 4095 := by
    rw [r3, C3]; rfl
  rw [hk4', o4] at h4'
  obtain ⟨m4, cw4, h4, hI4, hcw4, hb4, hc4⟩ := read_step m3 1 hI3 cw3 (by omega) (by omega)
  have hk4 : min (1 : Int) (m3.buffer.write_offset_bytes - m3.buffer.read_offset_bytes)
      = 1 := by omega
  rw [hk4, o4] at h4
  rw [hk4] at hb4
  have w4 : m4.buffer.write_offset_bytes = 4097 := by rw [hb4]; exact w3
  have r4 : m4.buffer.read_offset_bytes = 4096 := by rw [hb4]; simp only; omega
  have C4 : m4.buffer.count_bytes = 4096 := by rw [hb4]; exact C3
  have cw4' : m4.buffer.cached_write_offset ≤ m4.buffer.write_offset_bytes := by
    rw [hb4]; simp only
    omega
  obtain ⟨m5, cw5, h5, -⟩ := read_step m4 1 hI4 cw4' (by omega) (by omega)
  have hk5 : min (1 : Int) (m4.buffer.write_offset_bytes - m4.buffer.read_offset_bytes)
      = 1 := by omega
  have o5 : (m4.buffer.read_offset_bytes % m4.buffer.count_bytes).toNat = 0 := by
    rw [r4, C4]; rfl
  rw [hk5, o5, hc4] at h5
  refine ⟨m1, m2, m3, m4, m5, h1, h2, ?_, h3, ?_, ?_, ?_, ?_, ?_, ?_, ?_⟩
  · obtain ⟨j, hj⟩ := hI2.capacity
    unfold ring_buffer_write_address
    rw [hI2.mask, hj, land_mask j (by omega), ← hj, w2, C2]
    rfl
  · have := memmove_out_one hI3 4095 (by rw [C3]; decide)
    rw [c4095] at this
    exact this
  · have := memmove_out_one hI3 4096 (by rw [C3]; decide)
    rw [c4096] at this
    exact this
  · have := memmove_out_one hI3 0 (by rw [C3]; decide)
    rw [c0] at this
    simpa using this
  · rw [h4']
    show some ((2 : Int), loadBytes m3.cells 4095 2) = _
    simp only [loadBytes, c4095, c4096]
  · rw [h4]
    show some (m4, (1 : Int), loadBytes m3.cells 4095 1) = _
    simp only [loadBytes, c4095]
  · obtain ⟨j, hj⟩ := hI4.capacity
    unfold ring_buffer_read_address
    rw [hI4.mask, hj, land_mask j (by omega), ← hj, r4, C4]
    omega
  · rw [h5]
    show some (m5, (1 : Int), loadBytes m3.cells 0 1) = _
    simp only [loadBytes, c0]

/-! ## C4: wraparound contiguity -/

/-- C4 does not hold of the code: offsets `p` and `p + C` of the region are
different bytes. On the sample host (capacity 4096) the scenario of C4 runs
with `k = 1`: 4095 bytes of value 7 are written and read, then `T = [1, 2]` is
written at offset 4095 and returns 2. Its second byte lies at offset 4096,
and offset 0 still holds the 7 written before. A read of two bytes returns
`T`, as C4 says; but after a read of one byte the read cursor is 4096, the
read address is offset 0, and the next read returns 7, not 2: read back in
two calls, `T` does not come out in the order written. -/
theorem mirror_not_aliased :
    ∃ m1 m2 m3 m4 m5 : Machine,
      ring_buffer_write (ring_buffer_create host4096 zeroed 12) (List.replicate 4095 7) 4095
        = some (m1, 4095) ∧
      ring_buffer_read m1 4095 = some (m2, 4095, List.replicate 4095 7) ∧
      ring_buffer_write_address m2.buffer = m2.buffer.address + 4095 ∧
      ring_buffer_write m2 [1, 2] 2 = some (m3, 2) ∧
      memmove_out m3 (m3.buffer.address + 4095) 1 = some [1] ∧
      memmove_out m3 (m3.buffer.address + 4096) 1 = some [2] ∧
      memmove_out m3 m3.buffer.address 1 = some [7] ∧
      (ring_buffer_read m3 2).map (fun a => a.2) = some (2, [1, 2]) ∧
      ring_buffer_read m3 1 = some (m4, 1, [1]) ∧
      ring_buffer_read_address m4.buffer = m4.buffer.address ∧
      ring_buffer_read m4 1 = some (m5, 1, [7]) :=
  wrap_run created4096 rfl

/-! ## C5: peek does not mutate -/

/-- C5, as amended: for a buffer state satisfying the data-model invariants
with `0 ≤ cached_write_offset ≤ write_offset_bytes` and every `n ≥ 0`,
`ring_buffer_peek (out, n)` leaves both cursors and the stored bytes unchanged
and returns `min n avail`, `avail` being what `ring_buffer_count_bytes` returns
at call time; and when `read_offset_bytes + n ≤ LLONG_MAX`, a
`ring_buffer_read (out2, n)` issued right after returns the same count and the
same bytes. -/
theorem peek_then_read (m : Machine) (n : Int) (hI : Inv m)
    (hc0 : 0 ≤ m.buffer.cached_write_offset)
    (hc : m.buffer.cached_write_offset ≤ m.buffer.write_offset_bytes) (hn : 0 ≤ n) :
    ∃ (m' : Machine) (k : Int) (out : List Byte),
      k = min n (ring_buffer_count_bytes m.buffer).2 ∧
      ring_buffer_peek m n = some (m', k, out) ∧
      m'.buffer.read_offset_bytes = m.buffer.read_offset_bytes ∧
      m'.buffer.write_offset_bytes = m.buffer.write_offset_bytes ∧
      m'.cells = m.cells ∧
      (m.buffer.read_offset_bytes + n ≤ LLONG_MAX →
        ∃ m'' : Machine, ring_buffer_read m' n = some (m'', k, out)) := by
  rw [count_bytes_eq hI]
  obtain ⟨m', cw, hp, hI', hcw0, hcw, hb, hcells⟩ := peek_step m n hI hc0 hc hn
  refine ⟨m', _, _, rfl, hp, by rw [hb], by rw [hb], hcells, ?_⟩
  intro hov
  obtain ⟨m'', -, hr, -⟩ := read_step m' n hI' (by rw [hb]; exact hcw) hn (by rw [hb]; exact hov)
  refine ⟨m'', ?_⟩
  rw [hr, hb, hcells]

/-- C5 fails as stated, on two inputs that satisfy its hypotheses.
(1) The buffer is empty with both cursors at 1 and the length asked is
`LLONG_MAX`: the peek returns 0 and no byte, but in the read that follows
`read_offset + count_bytes` wraps, the length is not truncated and `memmove` is
asked for `LLONG_MAX` bytes, which leaves the mapped region.
(2) One byte is unread with the read cursor at `LLONG_MAX - 1` and two bytes
are asked: the peek returns 1 and one byte, the read that follows returns 2
and two bytes. -/
theorem peek_then_read_overflow :
    (Inv (at4096 1 1 1 1) ∧ 0 ≤ LLONG_MAX ∧
      (ring_buffer_peek (at4096 1 1 1 1) LLONG_MAX).map (fun a => a.2) = some (0, []) ∧
      ((ring_buffer_peek (at4096 1 1 1 1) LLONG_MAX).bind fun a =>
        (ring_buffer_read a.1 LLONG_MAX).map fun b => b.2) = none) ∧
    (Inv (at4096 LLONG_MAX (LLONG_MAX - 1) 0 LLONG_MAX) ∧
      (ring_buffer_peek (at4096 LLONG_MAX (LLONG_MAX - 1) 0 LLONG_MAX) 2).map (fun a => a.2)
        = some (1, [0]) ∧
      ((ring_buffer_peek (at4096 LLONG_MAX (LLONG_MAX - 1) 0 LLONG_MAX) 2).bind fun a =>
        (ring_buffer_read a.1 2).map fun b => b.2) = some (2, [0, 0])) :=
  ⟨⟨inv_at4096 (by decide) (by decide) (by decide) (by decide) (by decide) (by decide),
      by decide, by decide, by decide⟩,
    ⟨inv_at4096 (by decide) (by decide) (by decide) (by decide) (by decide) (by decide),
      by decide, by decide⟩⟩

/-- C5 (amended) at a sample input: five bytes asked with one unread, 65. -/
theorem peek_then_read_witness :
    ∃ m' m'' : Machine,
      ring_buffer_peek unread4096 5 = some (m', 1, [65]) ∧
      m'.buffer.read_offset_bytes = 0 ∧ m'.buffer.write_offset_bytes = 1 ∧
      m'.cells = unread4096.cells ∧
      ring_buffer_read m' 5 = some (m'', 1, [65]) := by
  obtain ⟨m', k, out, hk, hp, hr, hw, hcells, hread⟩ :=
    peek_then_read unread4096 5
      (inv_cells
        (inv_at4096 (by decide) (by decide) (by decide) (by decide) (by decide) (by decide)) _)
      (by decide) (by decide) (by decide)
  obtain ⟨m'', hread⟩ := hread (by decide)
  have hk1 : k = 1 := by rw [hk]; decide
  subst hk1
  have hout : out = [65] := by
    have h2 : (ring_buffer_peek unread4096 5).map (fun a => a.2.2) = some [65] := by decide
    rw [hp] at h2
    simpa using h2
  subst hout
  exact ⟨m', m'', hp, hr, hw, hcells, hread⟩

/-! ## C6: cursor bounds -/

/-- C6, as amended: in every state reached from a successful
`ring_buffer_create` by calls of write, read, peek, advance_write, advance_read,
available_for_read, available_for_write, reset, signal_close and
at_end_of_stream whose length arguments are non-negative and overflow no
`llong` sum (cursor plus length at most `LLONG_MAX`, and for write and
advance_write `read_offset_bytes + count_bytes` at most `LLONG_MAX`),
`0 ≤ read_offset_bytes ≤ write_offset_bytes` and
`write_offset_bytes - read_offset_bytes ≤ count_bytes`. -/
theorem cursor_bounds (h : Host) (order : Int) (m : Machine)
    (hR : Reach fitting_call h order m) :
    0 ≤ m.buffer.read_offset_bytes ∧
    m.buffer.read_offset_bytes ≤ m.buffer.write_offset_bytes ∧
    m.buffer.write_offset_bytes - m.buffer.read_offset_bytes ≤ m.buffer.count_bytes := by
  obtain ⟨hI, -⟩ := reach_sound hR
  have h2 := hI.write_le
  exact ⟨hI.read_nonneg, hI.read_le_write, by omega⟩

/-- C6 fails as stated. After a successful creation (capacity 4096),
`advance_write (1)` and then `advance_write (LLONG_MAX)`, both lengths
non-negative: `write_offset_bytes + count_bytes` wraps to `LLONG_MIN`, which
`MIN` keeps, and the write cursor ends below the read cursor. -/
theorem cursor_bounds_overflow :
    ∃ m : Machine, Reach nonneg_call host4096 12 m ∧
      m.buffer.write_offset_bytes = LLONG_MIN ∧ m.buffer.read_offset_bytes = 0 ∧
      ¬ (m.buffer.read_offset_bytes ≤ m.buffer.write_offset_bytes) := by
  refine ⟨_, Reach.call (Call.advance_write LLONG_MAX)
    (Reach.call (Call.advance_write 1) (Reach.created created4096) ?_ rfl) ?_ rfl, ?_⟩
  · show (0 : Int) ≤ 1
    decide
  · show (0 : Int) ≤ LLONG_MAX
    decide
  · rw [create4096]
    decide

/-- C6 (amended) at a sample input: the state after creation and a write of
three bytes. -/
theorem cursor_bounds_witness :
    ∃ m : Machine,
      exec (ring_buffer_create host4096 zeroed 12) (Call.write [1, 2, 3] 3) = some m ∧
      m.buffer.write_offset_bytes = 3 ∧
      0 ≤ m.buffer.read_offset_bytes ∧
      m.buffer.read_offset_bytes ≤ m.buffer.write_offset_bytes ∧
      m.buffer.write_offset_bytes - m.buffer.read_offset_bytes ≤ m.buffer.count_bytes := by
  have he : ∃ m : Machine,
      exec (ring_buffer_create host4096 zeroed 12) (Call.write [1, 2, 3] 3) = some m ∧
      m.buffer.write_offset_bytes = 3 := by
    rw [create4096]
    exact ⟨_, rfl, rfl⟩
  obtain ⟨m, he, hw⟩ := he
  have hok : fitting_call (ring_buffer_create host4096 zeroed 12) (Call.write [1, 2, 3] 3) := by
    rw [create4096]
    exact ⟨by show (0 : Int) ≤ 3; decide, by show (0 : Int) + 3 ≤ LLONG_MAX; decide,
      by show (0 : Int) + 4096 ≤ LLONG_MAX; decide⟩
  exact ⟨m, he, hw,
    cursor_bounds host4096 12 m (Reach.call _ (Reach.created created4096) hok he)⟩

/-! ## C7: negative lengths -/

/-- C7 does not hold of the code. On the sample buffer with one unread byte,
each of `ring_buffer_write`, `ring_buffer_read` and `ring_buffer_peek` called
with `count_bytes = -1` leaves the length as it is (no comparison is true of
it) and hands it to `memmove`, where it is the `size_t` `2 ^ 64 - 1`: the copy
leaves the mapped region and the call has no result. The same calls with
length 0 return 0; `ring_buffer_write_advance` and `ring_buffer_read_advance`
clamp the same argument to 0. -/
theorem negative_length_not_clamped :
    Inv unread4096 ∧
    size_t (-1) = 18446744073709551615 ∧
    (ring_buffer_write unread4096 [66] (-1)).map Prod.snd = none ∧
    (ring_buffer_read unread4096 (-1)).map (fun a => a.2) = none ∧
    (ring_buffer_peek unread4096 (-1)).map (fun a => a.2) = none ∧
    (ring_buffer_write unread4096 [66] 0).map Prod.snd = some 0 ∧
    (ring_buffer_read unread4096 0).map (fun a => a.2) = some (0, []) ∧
    (ring_buffer_peek unread4096 0).map (fun a => a.2) = some (0, []) ∧
    ring_buffer_write_advance unread4096.buffer (-1) = unread4096.buffer ∧
    ring_buffer_read_advance unread4096.buffer (-1) = unread4096.buffer :=
  ⟨inv_cells
      (inv_at4096 (by decide) (by decide) (by decide) (by decide) (by decide) (by decide)) _,
    by decide, by decide, by decide, by decide, by decide, by decide, by decide, by decide,
    by decide⟩

/-! ## C8: cursor monotonicity -/

/-- C8, as amended: for every state reached from a successful creation by
calls with non-negative lengths that overflow no `llong` sum, and every such
call applied to it that returns, `read_offset_bytes ≤ write_offset_bytes`
holds afterwards; unless the call is the reset, neither cursor is smaller
than before; the reset puts both cursors at zero. -/
theorem cursor_monotone (h : Host) (order : Int) (m m' : Machine) (c : Call)
    (hR : Reach fitting_call h order m) (hok : fitting_call m c) (he : exec m c = some m') :
    m'.buffer.read_offset_bytes ≤ m'.buffer.write_offset_bytes ∧
    (c ≠ Call.reset →
      m.buffer.read_offset_bytes ≤ m'.buffer.read_offset_bytes ∧
      m.buffer.write_offset_bytes ≤ m'.buffer.write_offset_bytes) ∧
    (c = Call.reset →
      m'.buffer.read_offset_bytes = 0 ∧ m'.buffer.write_offset_bytes = 0) := by
  obtain ⟨hS', -, hmono⟩ := exec_sound (reach_sound hR) hok.1 hok.2 he
  refine ⟨hS'.1.read_le_write, hmono, ?_⟩
  intro hc
  subst hc
  simp only [exec, Option.some.injEq] at he
  subst he
  exact ⟨rfl, rfl⟩

/-- C8 fails as stated. After a successful creation and `advance_write (1)`
the write cursor is 1; the reset puts it back to 0. -/
theorem cursor_monotone_reset :
    ∃ m m' : Machine, Reach nonneg_call host4096 12 m ∧ exec m Call.reset = some m' ∧
      m.buffer.write_offset_bytes = 1 ∧ m'.buffer.write_offset_bytes = 0 ∧
      ¬ (m.buffer.write_offset_bytes ≤ m'.buffer.write_offset_bytes) := by
  refine ⟨_, _, Reach.call (Call.advance_write 1) (Reach.created created4096) ?_ rfl, rfl, ?_, rfl, ?_⟩
  · show (0 : Int) ≤ 1
    decide
  · rw [create4096]
    decide
  · rw [create4096]
    decide

/-- C8 (amended) at a sample input: `advance_write (5)` on the fresh buffer. -/
theorem cursor_monotone_witness :
    ∃ m' : Machine,
      exec (ring_buffer_create host4096 zeroed 12) (Call.advance_write 5) = some m' ∧
      m'.buffer.read_offset_bytes ≤ m'.buffer.write_offset_bytes ∧
      (ring_buffer_create host4096 zeroed 12).buffer.read_offset_bytes
        ≤ m'.buffer.read_offset_bytes ∧
      (ring_buffer_create host4096 zeroed 12).buffer.write_offset_bytes
        ≤ m'.buffer.write_offset_bytes := by
  have hok : fitting_call (ring_buffer_create host4096 zeroed 12) (Call.advance_write 5) := by
    rw [create4096]
    exact ⟨by show (0 : Int) ≤ 5; decide, by show (0 : Int) + 5 ≤ LLONG_MAX; decide,
      by show (0 : Int) + 4096 ≤ LLONG_MAX; decide⟩
  obtain ⟨h1, h2, -⟩ :=
    cursor_monotone host4096 12 _ _ (Call.advance_write 5) (Reach.created created4096) hok rfl
  exact ⟨_, rfl, h1, (h2 (by simp)).1, (h2 (by simp)).2⟩

/-! ## C9: the concrete scenario -/

/-- C9, as amended: on a freshly created buffer of 4096 bytes (page size 4096,
order 12), writing 4000 bytes 65 returns 4000, after which
`available_for_read () = 4000` and `available_for_write () = 96`; writing a
further 200 bytes 66 returns 96 and `available_for_read ()` becomes 4096;
reading 4096 bytes returns 4096 and yields the 4000 bytes 65 followed by 96
bytes 66; any further read with `0 ≤ n ≤ LLONG_MAX - 4096` returns 0 and no
byte. -/
theorem concrete_scenario (h : Host) (hc : Created h 12) (hp : h.page_size = 4096) :
    ∃ m1 m2 m3 : Machine,
      ring_buffer_write (ring_buffer_create h zeroed 12) (List.replicate 4000 65) 4000
        = some (m1, 4000) ∧
      (ring_buffer_count_bytes m1.buffer).2 = 4000 ∧
      (ring_buffer_count_free_bytes (ring_buffer_count_bytes m1.buffer).1).2 = 96 ∧
      ring_buffer_write
          { m1 with buffer := (ring_buffer_count_free_bytes (ring_buffer_count_bytes m1.buffer).1).1 }
          (List.replicate 200 66) 200
        = some (m2, 96) ∧
      (ring_buffer_count_bytes m2.buffer).2 = 4096 ∧
      ring_buffer_read { m2 with buffer := (ring_buffer_count_bytes m2.buffer).1 } 4096
        = some (m3, 4096, List.replicate 4000 65 ++ List.replicate 96 66) ∧
      ∀ n : Int, 0 ≤ n → n ≤ LLONG_MAX - 4096 →
        ∃ m4 : Machine, ring_buffer_read m3 n = some (m4, 0, []) := by
  obtain ⟨m1, m2, m3, h1, h2, h3, h4, h5, h6, hS, hr, hw, -⟩ := scenario_run hc hp
  refine ⟨m1, m2, m3, h1, h2, h3, h4, h5, h6, ?_⟩
  intro n hn hle
  obtain ⟨m4, -, h7, -⟩ := read_step m3 n hS.1 hS.2.2.2.2 hn (by omega)
  have hk : min n (m3.buffer.write_offset_bytes - m3.buffer.read_offset_bytes) = 0 := by omega
  rw [hk] at h7
  exact ⟨m4, h7⟩

/-- C9 fails as stated. After the scenario both cursors stand at 4096; a
further read of `LLONG_MAX` bytes makes `read_offset + count_bytes` wrap, the
length is not truncated and `memmove` is asked for `LLONG_MAX` bytes, which
leaves the mapped region: the call does not return 0. -/
theorem concrete_scenario_overflow :
    ∃ m1 m2 m3 : Machine,
      ring_buffer_write (ring_buffer_create host4096 zeroed 12) (List.replicate 4000 65) 4000
        = some (m1, 4000) ∧
      ring_buffer_write
          { m1 with buffer := (ring_buffer_count_free_bytes (ring_buffer_count_bytes m1.buffer).1).1 }
          (List.replicate 200 66) 200
        = some (m2, 96) ∧
      ring_buffer_read { m2 with buffer := (ring_buffer_count_bytes m2.buffer).1 } 4096
        = some (m3, 4096, List.replicate 4000 65 ++ List.replicate 96 66) ∧
      0 ≤ LLONG_MAX ∧ ring_buffer_read m3 LLONG_MAX = none := by
  obtain ⟨m1, m2, m3, h1, -, -, h4, -, h6, hS, hr, -, hC⟩ := scenario_run created4096 rfl
  have hmax : LLONG_MAX = 2 ^ 63 - 1 := rfl
  exact ⟨m1, m2, m3, h1, h4, h6, by decide,
    read_overflow_none hS.1 hS.2.2.2.1 (le_refl _) (by omega) (by omega)⟩

/-- C9 (amended) on the sample host. -/
theorem concrete_scenario_witness :
    ∃ m1 m2 m3 : Machine,
      ring_buffer_write (ring_buffer_create host4096 zeroed 12) (List.replicate 4000 65) 4000
        = some (m1, 4000) ∧
      (ring_buffer_count_bytes m1.buffer).2 = 4000 ∧
      (ring_buffer_count_free_bytes (ring_buffer_count_bytes m1.buffer).1).2 = 96 ∧
      ring_buffer_write
          { m1 with buffer := (ring_buffer_count_free_bytes (ring_buffer_count_bytes m1.buffer).1).1 }
          (List.replicate 200 66) 200
        = some (m2, 96) ∧
      (ring_buffer_count_bytes m2.buffer).2 = 4096 ∧
      ring_buffer_read { m2 with buffer := (ring_buffer_count_bytes m2.buffer).1 } 4096
        = some (m3, 4096, List.replicate 4000 65 ++ List.replicate 96 66) ∧
      ∀ n : Int, 0 ≤ n → n ≤ LLONG_MAX - 4096 →
        ∃ m4 : Machine, ring_buffer_read m3 n = some (m4, 0, []) :=
  concrete_scenario host4096 created4096 rfl

/-! ## C10: the clamp of advance_write -/

/-- C10, as amended: for a struct whose cursors satisfy
`0 ≤ read ≤ write ≤ read + count_bytes` and every integer `n`, negative
included, for which neither `write_offset_bytes + max n 0` nor
`read_offset_bytes + count_bytes` exceeds `LLONG_MAX`,
`ring_buffer_write_advance (n)` sets the write cursor to
`min (write + max n 0) (read + count_bytes)` and changes no other field;
afterwards the write cursor is at most `read + count_bytes` and not smaller
than before. -/
theorem write_advance_clamp (b : ring_buffer) (n : Int) (h0 : 0 ≤ b.read_offset_bytes)
    (h1 : b.read_offset_bytes ≤ b.write_offset_bytes)
    (h2 : b.write_offset_bytes ≤ b.read_offset_bytes + b.count_bytes)
    (hov : b.write_offset_bytes + max n 0 ≤ LLONG_MAX)
    (hroom : b.read_offset_bytes + b.count_bytes ≤ LLONG_MAX) :
    ring_buffer_write_advance b n =
      { b with
        write_offset_bytes :=
          min (b.write_offset_bytes + max n 0) (b.read_offset_bytes + b.count_bytes) } ∧
    (ring_buffer_write_advance b n).write_offset_bytes ≤ b.read_offset_bytes + b.count_bytes ∧
    b.write_offset_bytes ≤ (ring_buffer_write_advance b n).write_offset_bytes := by
  have hrun := write_advance_run b n (by omega) hov (by omega) hroom
  refine ⟨hrun, ?_, ?_⟩
  · rw [hrun]
    exact min_le_right _ _
  · rw [hrun]
    show b.write_offset_bytes ≤ min _ _
    omega

/-- C10 fails as stated, on two inputs that satisfy its hypotheses.
(1) With the write cursor at 1, the read cursor at 0 and capacity 4096,
`ring_buffer_write_advance (LLONG_MAX)` computes `1 + LLONG_MAX`, which wraps to
`LLONG_MIN`; `MIN` keeps it and the write cursor becomes `LLONG_MIN`, not
`min (1 + LLONG_MAX) 4096 = 4096`, and is smaller than before.
(2) With both cursors at `LLONG_MAX - 1`, `ring_buffer_write_advance (0)`
computes `read_offset_bytes + count_bytes`, which wraps to `LLONG_MIN + 4094`;
`MIN` picks it and the write cursor moves back to it. -/
theorem write_advance_clamp_overflow :
    ((ring_buffer_write_advance (at4096 1 0 0 0).buffer LLONG_MAX).write_offset_bytes = LLONG_MIN ∧
      min ((at4096 1 0 0 0).buffer.write_offset_bytes + max LLONG_MAX 0)
        ((at4096 1 0 0 0).buffer.read_offset_bytes + (at4096 1 0 0 0).buffer.count_bytes) = 4096 ∧
      (ring_buffer_write_advance (at4096 1 0 0 0).buffer LLONG_MAX).write_offset_bytes
        < (at4096 1 0 0 0).buffer.write_offset_bytes) ∧
    ((ring_buffer_write_advance
        (at4096 (LLONG_MAX - 1) (LLONG_MAX - 1) 0 0).buffer 0).write_offset_bytes
        = LLONG_MIN + 4094 ∧
      min ((at4096 (LLONG_MAX - 1) (LLONG_MAX - 1) 0 0).buffer.write_offset_bytes + max 0 0)
        ((at4096 (LLONG_MAX - 1) (LLONG_MAX - 1) 0 0).buffer.read_offset_bytes +
          (at4096 (LLONG_MAX - 1) (LLONG_MAX - 1) 0 0).buffer.count_bytes) = LLONG_MAX - 1) := by
  decide

/-- C10 (amended) at two sample inputs: an advance of 5000 with 4093 bytes
free is clamped to the capacity, and a negative advance moves nothing. -/
theorem write_advance_clamp_witness :
    ring_buffer_write_advance (at4096 3 0 0 0).buffer 5000
      = { (at4096 3 0 0 0).buffer with write_offset_bytes := 4096 } ∧
    ring_buffer_write_advance (at4096 3 0 0 0).buffer (-7) = (at4096 3 0 0 0).buffer :=
  ⟨(write_advance_clamp (at4096 3 0 0 0).buffer 5000 (by decide) (by decide) (by decide)
      (by decide) (by decide)).1,
    (write_advance_clamp (at4096 3 0 0 0).buffer (-7) (by decide) (by decide) (by decide)
      (by decide) (by decide)).1⟩

/-! ## C11: the clamp of advance_read -/

/-- C11, as amended: for a struct whose cursors satisfy
`0 ≤ read ≤ write` and every integer `n`, negative included, for which
`read_offset_bytes + max n 0` does not exceed `LLONG_MAX`,
`ring_buffer_read_advance (n)` sets the read cursor to
`min (read + max n 0) write` and changes no other field; afterwards the read
cursor is at most the write cursor and not smaller than before. -/
theorem read_advance_clamp (b : ring_buffer) (n : Int) (h0 : 0 ≤ b.read_offset_bytes)
    (h1 : b.read_offset_bytes ≤ b.write_offset_bytes)
    (hov : b.read_offset_bytes + max n 0 ≤ LLONG_MAX) :
    ring_buffer_read_advance b n =
      { b with
        read_offset_bytes := min (b.read_offset_bytes + max n 0) b.write_offset_bytes } ∧
    (ring_buffer_read_advance b n).read_offset_bytes ≤ b.write_offset_bytes ∧
    b.read_offset_bytes ≤ (ring_buffer_read_advance b n).read_offset_bytes := by
  have hrun := read_advance_run b n h0 hov
  refine ⟨hrun, ?_, ?_⟩
  · rw [hrun]
    exact min_le_right _ _
  · rw [hrun]
    show b.read_offset_bytes ≤ min _ _
    omega

/-- C11 fails as stated. With the read cursor at 1, the write cursor at 3 and
capacity 4096, `ring_buffer_read_advance (LLONG_MAX)` computes
`1 + LLONG_MAX`, which wraps to `LLONG_MIN`; `MIN` keeps it and the read cursor
becomes `LLONG_MIN`, not `min (1 + LLONG_MAX) 3 = 3`, and is smaller than
before. -/
theorem read_advance_clamp_overflow :
    (0 ≤ (at4096 3 1 0 0).buffer.read_offset_bytes ∧
      (at4096 3 1 0 0).buffer.read_offset_bytes ≤ (at4096 3 1 0 0).buffer.write_offset_bytes ∧
      (at4096 3 1 0 0).buffer.write_offset_bytes
        ≤ (at4096 3 1 0 0).buffer.read_offset_bytes + (at4096 3 1 0 0).buffer.count_bytes) ∧
    (ring_buffer_read_advance (at4096 3 1 0 0).buffer LLONG_MAX).read_offset_bytes = LLONG_MIN ∧
    min ((at4096 3 1 0 0).buffer.read_offset_bytes + max LLONG_MAX 0)
      (at4096 3 1 0 0).buffer.write_offset_bytes = 3 ∧
    (ring_buffer_read_advance (at4096 3 1 0 0).buffer LLONG_MAX).read_offset_bytes
      < (at4096 3 1 0 0).buffer.read_offset_bytes := by
  decide

/-- C11 (amended) at two sample inputs: an advance of 5000 with 3 bytes unread
stops at the write cursor, and a negative advance moves nothing. -/
theorem read_advance_clamp_witness :
    ring_buffer_read_advance (at4096 7 4 0 0).buffer 5000
      = { (at4096 7 4 0 0).buffer with read_offset_bytes := 7 } ∧
    ring_buffer_read_advance (at4096 7 4 0 0).buffer (-7) = (at4096 7 4 0 0).buffer :=
  ⟨(read_advance_clamp (at4096 7 4 0 0).buffer 5000 (by decide) (by decide) (by decide)).1,
    (read_advance_clamp (at4096 7 4 0 0).buffer (-7) (by decide) (by decide) (by decide)).1⟩

/-- A call that is not the producer's (and not the reset) leaves the write
cursor where it is, whatever its length argument. -/
theorem exec_consumer_side {m m' : Machine} {c : Call} (hc : c.consumer_side)
    (he : exec m c = some m') :
    m'.buffer.write_offset_bytes = m.buffer.write_offset_bytes := by
  cases c with
  | write data n => exact absurd hc id
  | advance_write n => exact absurd hc id
  | reset => exact absurd hc id
  | read n =>
    simp only [exec, ring_buffer_read] at he
    split at he
    · simp at he
    · simp only [Option.map_some', Option.some.injEq] at he
      subst he
      simp only
      split_ifs <;> rfl
  | peek n =>
    simp only [exec, ring_buffer_peek] at he
    split at he
    · simp at he
    · simp only [Option.map_some', Option.some.injEq] at he
      subst he
      simp only
      split_ifs <;> rfl
  | advance_read n =>
    simp only [exec, Option.some.injEq] at he
    subst he
    rfl
  | available_for_read =>
    simp only [exec, Option.some.injEq] at he
    subst he
    rfl
  | available_for_write =>
    simp only [exec, Option.some.injEq] at he
    subst he
    rfl
  | signal_close =>
    simp only [exec, Option.some.injEq] at he
    subst he
    rfl
  | at_end_of_stream =>
    simp only [exec, Option.some.injEq] at he
    subst he
    rfl

/-- A list of such calls leaves the write cursor where it is. -/
theorem run_consumer_side (cs : List Call) :
    ∀ (m m' : Machine), (∀ c ∈ cs, c.consumer_side) → run m cs = some m' →
      m'.buffer.write_offset_bytes = m.buffer.write_offset_bytes := by
  induction cs with
  | nil =>
    intro m m' _ h
    simp only [run, Option.some.injEq] at h
    rw [h]
  | cons c cs ih =>
    intro m m' hcs h
    simp only [run] at h
    cases he : exec m c with
    | none => rw [he] at h; simp at h
    | some m1 =>
      rw [he] at h
      simp only [Option.some_bind] at h
      rw [ih m1 m' (fun c' hc' => hcs c' (List.mem_cons_of_mem _ hc')) h]
      exact exec_consumer_side (hcs c (List.mem_cons_self _ _)) he

/-! ## C12: end of stream -/

/-- C12, as amended: `ring_buffer_write_close` records the write cursor `e` in
`end_offset_bytes`; in every later state reached by calls other than write,
advance_write and reset, the write cursor is still `e` and
`ring_buffer_eof` returns true exactly when the read cursor equals `e`: in
particular it returns true in each of those states in which the read cursor
equals `e`. -/
theorem eof_after_close (m m' : Machine) (cs : List Call)
    (hcs : ∀ c ∈ cs, c.consumer_side)
    (hrun : run { m with buffer := ring_buffer_write_close m.buffer } cs = some m') :
    (ring_buffer_write_close m.buffer).end_offset_bytes = m.buffer.write_offset_bytes ∧
    m'.buffer.write_offset_bytes = m.buffer.write_offset_bytes ∧
    (m'.buffer.read_offset_bytes = m.buffer.write_offset_bytes →
      ring_buffer_eof m'.buffer = true) ∧
    (ring_buffer_eof m'.buffer = true →
      m'.buffer.read_offset_bytes = m.buffer.write_offset_bytes) := by
  have hw := run_consumer_side cs _ m' hcs hrun
  have hw' : m'.buffer.write_offset_bytes = m.buffer.write_offset_bytes := hw
  refine ⟨rfl, hw', ?_, ?_⟩
  · intro hr
    unfold ring_buffer_eof
    rw [hw', hr]
    simp
  · intro he
    unfold ring_buffer_eof at he
    rw [hw'] at he
    simp only [beq_iff_eq] at he
    exact he.symm

/-- C12 fails as stated. On the freshly created sample buffer `signal_close` is called
with the write cursor at 0; a byte is then written; the read cursor still
equals 0, the value at close time, and `ring_buffer_eof` returns false. -/
theorem eof_after_close_written :
    (run (ring_buffer_create host4096 zeroed 12) [Call.signal_close, Call.write [65] 1]).map
      (fun m => (m.buffer.end_offset_bytes, m.buffer.read_offset_bytes,
        m.buffer.write_offset_bytes, ring_buffer_eof m.buffer)) = some (0, 0, 1, false) := by
  rw [create4096]
  decide

/-- C12 (amended) at a sample input: three bytes unread, the close, then a
peek and a read of three bytes. -/
theorem eof_after_close_witness :
    ∃ m' : Machine,
      run { at4096 3 0 0 0 with buffer := ring_buffer_write_close (at4096 3 0 0 0).buffer }
        [Call.peek 2, Call.read 3] = some m' ∧
      m'.buffer.read_offset_bytes = 3 ∧ ring_buffer_eof m'.buffer = true := by
  have hrun : ∃ m' : Machine,
      run { at4096 3 0 0 0 with buffer := ring_buffer_write_close (at4096 3 0 0 0).buffer }
        [Call.peek 2, Call.read 3] = some m' ∧ m'.buffer.read_offset_bytes = 3 :=
    ⟨_, rfl, rfl⟩
  obtain ⟨m', hrun, hr⟩ := hrun
  have h := eof_after_close (at4096 3 0 0 0) m' [Call.peek 2, Call.read 3]
    (by intro c hc; simp at hc; rcases hc with rfl | rfl <;> exact trivial) hrun
  exact ⟨m', hrun, hr, h.2.2.1 hr⟩

/-! ## C13: capacity conservation -/

/-- C13, as amended: in every state reached from a successful
`ring_buffer_create` by calls with non-negative lengths that overflow no
`llong` sum, what `ring_buffer_count_bytes` returns plus what
`ring_buffer_count_free_bytes` returns equals `count_bytes`, and neither is
negative. -/
theorem capacity_conservation (h : Host) (order : Int) (m : Machine)
    (hR : Reach fitting_call h order m) :
    (ring_buffer_count_bytes m.buffer).2 + (ring_buffer_count_free_bytes m.buffer).2
      = m.buffer.count_bytes ∧
    0 ≤ (ring_buffer_count_bytes m.buffer).2 ∧
    0 ≤ (ring_buffer_count_free_bytes m.buffer).2 := by
  obtain ⟨hI, -⟩ := reach_sound hR
  have h1 := hI.read_le_write
  have h2 := hI.write_le
  rw [count_bytes_eq hI, count_free_bytes_eq hI]
  omega

/-- C13 fails as stated. After a successful creation (capacity 4096),
`advance_write (1)` and `advance_write (LLONG_MAX)` leave the write cursor at
`LLONG_MIN`; `ring_buffer_count_bytes` then returns `LLONG_MIN`,
`ring_buffer_count_free_bytes` returns `4096 - 2 ^ 63`, and the two do not add
up to 4096. -/
theorem capacity_conservation_overflow :
    ∃ m : Machine, Reach nonneg_call host4096 12 m ∧
      (ring_buffer_count_bytes m.buffer).2 = LLONG_MIN ∧
      (ring_buffer_count_free_bytes m.buffer).2 = 4096 - 2 ^ 63 ∧
      m.buffer.count_bytes = 4096 ∧
      (ring_buffer_count_bytes m.buffer).2 + (ring_buffer_count_free_bytes m.buffer).2
        ≠ m.buffer.count_bytes := by
  refine ⟨_, Reach.call (Call.advance_write LLONG_MAX)
    (Reach.call (Call.advance_write 1) (Reach.created created4096) ?_ rfl) ?_ rfl, ?_⟩
  · show (0 : Int) ≤ 1
    decide
  · show (0 : Int) ≤ LLONG_MAX
    decide
  · rw [create4096]
    decide

/-- C13 (amended) at a sample input: the state after creation and a write of
three bytes. -/
theorem capacity_conservation_witness :
    ∃ m : Machine,
      exec (ring_buffer_create host4096 zeroed 12) (Call.write [1, 2, 3] 3) = some m ∧
      (ring_buffer_count_bytes m.buffer).2 = 3 ∧
      (ring_buffer_count_bytes m.buffer).2 + (ring_buffer_count_free_bytes m.buffer).2
        = m.buffer.count_bytes := by
  have he : ∃ m : Machine,
      exec (ring_buffer_create host4096 zeroed 12) (Call.write [1, 2, 3] 3) = some m ∧
      (ring_buffer_count_bytes m.buffer).2 = 3 := by
    rw [create4096]
    exact ⟨_, rfl, by decide⟩
  obtain ⟨m, he, hc⟩ := he
  have hok : fitting_call (ring_buffer_create host4096 zeroed 12) (Call.write [1, 2, 3] 3) := by
    rw [create4096]
    exact ⟨by show (0 : Int) ≤ 3; decide, by show (0 : Int) + 3 ≤ LLONG_MAX; decide,
      by show (0 : Int) + 4096 ≤ LLONG_MAX; decide⟩
  exact ⟨m, he, hc,
    (capacity_conservation host4096 12 m
      (Reach.call _ (Reach.created created4096) hok he)).1⟩

/-- Line 38 for every power-of-two page size a `long` can hold: the larger of
`2 ^ order` and the page size. -/
theorem round_to_page_long {p o : Nat} (hp : p ≤ 62) (ho : o ≤ 61) :
    round_to_page (2 ^ p) o = 2 ^ max p o := by
  have hP : (2 : Int) ^ p ≤ 2 ^ 62 := pow_le_pow_right₀ (by norm_num) hp
  have hO := pow_le_61 ho
  have hP0 : (0 : Int) < 2 ^ p := by positivity
  have hO0 : (0 : Int) < 2 ^ o := by positivity
  have hmax : LLONG_MAX = 2 ^ 63 - 1 := rfl
  have hmin : LLONG_MIN = -(2 ^ 63) := rfl
  have hs : shl_one (o : Int) = 2 ^ o := by
    unfold shl_one
    have : ((o : Int) % 64).toNat = o := by omega
    rw [this]
    exact wrap_eq (by omega) (by omega)
  have e1 : wrap ((2 : Int) ^ p - 1) = 2 ^ p - 1 := wrap_eq (by omega) (by omega)
  have e2 : wrap ((2 : Int) ^ o + (2 ^ p - 1)) = 2 ^ o + (2 ^ p - 1) :=
    wrap_eq (by omega) (by omega)
  unfold round_to_page
  rw [hs, e1, e2, land_not_mask p (by omega)]
  rcases le_total p o with h | h
  · rw [max_eq_right h]
    obtain ⟨d, rfl⟩ := Nat.exists_eq_add_of_le h
    have e3 : (2 : Int) ^ (p + d) + (2 ^ p - 1) = (2 ^ p - 1) + 2 ^ p * 2 ^ d := by ring
    rw [e3, Int.add_mul_ediv_left _ _ (ne_of_gt hP0), Int.ediv_eq_zero_of_lt (by omega) (by omega)]
    ring
  · rw [max_eq_left h]
    have hle : (2 : Int) ^ o ≤ 2 ^ p := pow_le_pow_right₀ (by norm_num) h
    have e3 : (2 : Int) ^ o + (2 ^ p - 1) = (2 ^ o - 1) + 2 ^ p * 1 := by ring
    rw [e3, Int.add_mul_ediv_left _ _ (ne_of_gt hP0), Int.ediv_eq_zero_of_lt (by omega) (by omega)]
    ring

/-- Line 38 on such inputs overflows nowhere: the value is the bitwise
expression on the integers. -/
theorem round_to_page_plain {p o : Nat} (hp : p ≤ 62) (ho : o ≤ 61) :
    round_to_page (2 ^ p) o = Int.land (2 ^ o + (2 ^ p - 1)) (Int.not (2 ^ p - 1)) := by
  have hP : (2 : Int) ^ p ≤ 2 ^ 62 := pow_le_pow_right₀ (by norm_num) hp
  have hO := pow_le_61 ho
  have hP0 : (0 : Int) < 2 ^ p := by positivity
  have hO0 : (0 : Int) < 2 ^ o := by positivity
  have hmax : LLONG_MAX = 2 ^ 63 - 1 := rfl
  have hmin : LLONG_MIN = -(2 ^ 63) := rfl
  have hs : shl_one (o : Int) = 2 ^ o := by
    unfold shl_one
    have : ((o : Int) % 64).toNat = o := by omega
    rw [this]
    exact wrap_eq (by omega) (by omega)
  have e1 : wrap ((2 : Int) ^ p - 1) = 2 ^ p - 1 := wrap_eq (by omega) (by omega)
  have e2 : wrap ((2 : Int) ^ o + (2 ^ p - 1)) = 2 ^ o + (2 ^ p - 1) :=
    wrap_eq (by omega) (by omega)
  unfold round_to_page
  rw [hs, e1, e2]

/-! ## C14: capacity rounding -/

/-- C14: for every page size `P = 2 ^ p` a `long` holds and every order with
`0 ≤ order ≤ 61`, the value `ring_buffer_create` computes at line 38,
`((1LL << order) + (P - 1)) & ~(P - 1)`, overflows nowhere and is
`max (2 ^ order) P`: it is positive,
a power of two, a multiple of `P`, at least `2 ^ order`, and the least such
multiple; once `/dev/zero` is open the struct gets `count_mask` one less than
it, and `count_bytes` is that value when the reservation fails and when every
step succeeds. -/
theorem capacity_rounding (h : Host) (m : Machine) (order : Int) (p : Nat) (hp : p ≤ 62)
    (hP : h.page_size = 2 ^ p) (ho0 : 0 ≤ order) (ho : order ≤ 61) (hfd : 0 ≤ h.fd) :
    round_to_page h.page_size order
      = Int.land (2 ^ order.toNat + (h.page_size - 1)) (Int.not (h.page_size - 1)) ∧
    round_to_page h.page_size order = max (2 ^ order.toNat) h.page_size ∧
    0 < round_to_page h.page_size order ∧
    (∃ k : Nat, round_to_page h.page_size order = 2 ^ k) ∧
    h.page_size ∣ round_to_page h.page_size order ∧
    2 ^ order.toNat ≤ round_to_page h.page_size order ∧
    (∀ x : Int, h.page_size ∣ x → 2 ^ order.toNat ≤ x → round_to_page h.page_size order ≤ x) ∧
    (ring_buffer_create h m order).buffer.count_mask = round_to_page h.page_size order - 1 ∧
    (h.reserved = MAP_FAILED ∨
        (h.first = h.reserved ∧ h.second = h.reserved + round_to_page h.page_size order ∧
          h.close_status = 0) →
      (ring_buffer_create h m order).buffer.count_bytes = round_to_page h.page_size order) := by
  obtain ⟨o, rfl⟩ := Int.eq_ofNat_of_zero_le ho0
  have ho' : o ≤ 61 := by omega
  have hr : round_to_page h.page_size o = 2 ^ max p o := by rw [hP]; exact round_to_page_long hp ho'
  have hk : (2 : Int) ^ max p o ≤ 2 ^ 62 := pow_le_pow_right₀ (by norm_num) (max_le hp (by omega))
  have hk0 : (0 : Int) < 2 ^ max p o := by positivity
  have hmax : LLONG_MAX = 2 ^ 63 - 1 := rfl
  have hmin : LLONG_MIN = -(2 ^ 63) := rfl
  have hmono : ((2 : Int) ^ o) ⊔ 2 ^ p = 2 ^ max p o := by
    rcases le_total p o with h' | h'
    · rw [max_eq_right h', max_eq_left (pow_le_pow_right₀ (by norm_num) h')]
    · rw [max_eq_left h', max_eq_right (pow_le_pow_right₀ (by norm_num) h')]
  have hmask : wrap (round_to_page h.page_size o - 1) = round_to_page h.page_size o - 1 := by
    rw [hr]; exact wrap_eq (by omega) (by omega)
  have h1 : ¬ h.fd < 0 := not_lt.mpr hfd
  refine ⟨?_, ?_, ?_, ⟨max p o, hr⟩, ?_, ?_, ?_, ?_, ?_⟩
  · rw [hP]
    simp only [Int.toNat_ofNat]
    exact round_to_page_plain hp ho'
  · rw [hr, hP]
    simp only [Int.toNat_ofNat]
    exact hmono.symm
  · rw [hr]; exact hk0
  · rw [hr, hP]
    exact pow_dvd_pow 2 (le_max_left p o)
  · rw [hr]
    simp only [Int.toNat_ofNat]
    exact pow_le_pow_right₀ (by norm_num) (le_max_right p o)
  · intro x hdvd hle
    simp only [Int.toNat_ofNat] at hle
    rw [hr]
    rcases le_total p o with h' | h'
    · rw [max_eq_right h']; exact hle
    · rw [max_eq_left h']
      rw [hP] at hdvd
      have hx0 : 0 < x := lt_of_lt_of_le (by positivity) hle
      exact Int.le_of_dvd hx0 hdvd
  · unfold ring_buffer_create
    simp only [if_neg h1]
    split_ifs <;> exact hmask
  · intro hcase
    unfold ring_buffer_create
    simp only [if_neg h1]
    rcases hcase with hres | ⟨hf, hs, hc⟩
    · simp only [if_pos hres]
    · split_ifs with g1 g2 g3 g4
      · rfl
      · exact absurd hf g2
      · exact absurd hs g3
      · exact absurd hc g4
      · rfl

/-- C14 at a sample input: 4096-byte pages and order 13 give 8192 bytes and
the mask 8191. -/
theorem capacity_rounding_witness :
    round_to_page host4096.page_size 13 = max (2 ^ (13 : Int).toNat) host4096.page_size ∧
    round_to_page host4096.page_size 13 = 8192 ∧
    (ring_buffer_create host4096 zeroed 13).buffer.count_mask = 8191 := by
  have h := capacity_rounding host4096 zeroed 13 12 (by decide) (by decide) (by decide)
    (by decide) (by decide)
  have e : round_to_page host4096.page_size 13 = 8192 := by rw [h.2.1]; decide
  refine ⟨h.2.1, e, ?_⟩
  rw [h.2.2.2.2.2.2.2.1, e]
  decide

/-! ## C15: construction failure -/

/-- C15 does not hold of the code. When `/dev/zero` opens and the reservation
`mmap` fails, `ring_buffer_create` returns at line 49 with `address` still
`MAP_FAILED`, which is not `NULL`, and `count_bytes` still the rounded size
(4096 on the sample host): `ring_buffer_free` then does not return early, it
calls `munmap (MAP_FAILED, 8192)` and rewrites both fields. The other outcomes
are as C15 says: when the open fails the zero-filled struct is untouched; when
a fixed mapping or the close fails the region is unmapped, `address` is `NULL`,
`count_bytes` is 0 and `ring_buffer_free` changes nothing; when every step
succeeds `address` is the reserved base, `count_bytes` is positive and the
cursors and caches are 0. -/
theorem reservation_failure_not_disabled :
    ((ring_buffer_create host_unreserved zeroed 12).buffer.address = MAP_FAILED ∧
      MAP_FAILED ≠ NULL ∧
      (ring_buffer_create host_unreserved zeroed 12).buffer.count_bytes = 4096 ∧
      (ring_buffer_create host_unreserved zeroed 12).mapping = none ∧
      (ring_buffer_free (-1) (some (ring_buffer_create host_unreserved zeroed 12))).map
        (fun m => (m.buffer.address, m.buffer.count_bytes, m.unmapped))
          = some (0, 0, [(MAP_FAILED, 8192)])) ∧
    (∀ (h : Host) (order : Int), h.fd < 0 →
      ring_buffer_create h zeroed order = zeroed ∧ zeroed.buffer.address = NULL) ∧
    (∀ (h : Host) (order : Int), 0 ≤ h.fd → h.reserved ≠ MAP_FAILED →
      (h.first ≠ h.reserved ∨ h.second ≠ h.reserved + round_to_page h.page_size order ∨
        h.close_status ≠ 0) →
      (ring_buffer_create h zeroed order).buffer.address = NULL ∧
      (ring_buffer_create h zeroed order).buffer.count_bytes = 0 ∧
      (ring_buffer_create h zeroed order).mapping = none ∧
      (ring_buffer_create h zeroed order).unmapped
        = [(h.reserved, wrap (2 * round_to_page h.page_size order))] ∧
      ∀ status : Int,
        ring_buffer_free status (some (ring_buffer_create h zeroed order))
          = some (ring_buffer_create h zeroed order)) ∧
    (∀ (h : Host) (order : Int), Created h order →
      (ring_buffer_create h zeroed order).buffer.address = h.reserved ∧
      (ring_buffer_create h zeroed order).mapping
        = some (h.reserved, (ring_buffer_create h zeroed order).buffer.count_bytes) ∧
      0 < (ring_buffer_create h zeroed order).buffer.count_bytes ∧
      (ring_buffer_create h zeroed order).buffer.write_offset_bytes = 0 ∧
      (ring_buffer_create h zeroed order).buffer.read_offset_bytes = 0 ∧
      (ring_buffer_create h zeroed order).buffer.cached_read_offset = 0 ∧
      (ring_buffer_create h zeroed order).buffer.cached_write_offset = 0) := by
  refine ⟨?_, ?_, ?_, ?_⟩
  · have hc : ring_buffer_create host_unreserved zeroed 12 =
        { zeroed with
          buffer :=
            { address := MAP_FAILED, count_bytes := 4096, count_mask := 4095,
              write_offset_bytes := 0, cached_read_offset := 0, read_offset_bytes := 0,
              cached_write_offset := 0, end_offset_bytes := 0, page_size := 4096 } } := by
      unfold ring_buffer_create
      rw [show host_unreserved.page_size = 4096 from rfl, round4096]
      rfl
    rw [hc]
    exact ⟨rfl, by decide, rfl, rfl, by decide⟩
  · intro h order hfd
    unfold ring_buffer_create
    rw [if_pos hfd]
    exact ⟨rfl, rfl⟩
  · intro h order hfd hres hfail
    have h1 : ¬ h.fd < 0 := not_lt.mpr hfd
    have key : ring_buffer_create h zeroed order =
        { buffer :=
            { address := NULL, count_bytes := 0,
              count_mask := wrap (round_to_page h.page_size order - 1),
              write_offset_bytes := 0, cached_read_offset := 0, read_offset_bytes := 0,
              cached_write_offset := 0, end_offset_bytes := 0, page_size := h.page_size }
          mapping := none
          cells := zeroed.cells
          unmapped := zeroed.unmapped ++ [(h.reserved, wrap (2 * round_to_page h.page_size order))] } := by
      unfold ring_buffer_create
      simp only [if_neg h1, if_neg hres]
      split_ifs with g2 g3 g4
      · rfl
      · rfl
      · rfl
      · rcases hfail with hf | hf | hf
        · exact absurd hf g2
        · exact absurd hf g3
        · exact absurd hf g4
    rw [key]
    exact ⟨rfl, rfl, rfl, rfl, fun _ => rfl⟩
  · intro h order hc
    obtain ⟨hI, hw, hr, hcr, hcw, -⟩ := create_fresh hc
    refine ⟨?_, ?_, count_pos hI, hw, hr, hcr, hcw⟩
    · rw [(create_ok hc).1]
    · have := hI.mapped
      rw [this, (create_ok hc).1]

/-! ## C16: teardown -/

/-- C16: `ring_buffer_free` on a null pointer, or on a struct whose `address`
is `NULL`, changes nothing and calls no `munmap`; on a struct with another
`address` it calls `munmap (address, count_bytes << 1)` — `2 * count_bytes`
bytes when that fits an `llong` — and sets `address = NULL` and
`count_bytes = 0` whatever `munmap` answers, leaving every other field; when
`munmap` succeeds on the region the struct owns, nothing is mapped afterwards;
a second `ring_buffer_free` changes nothing more. -/
theorem teardown (status status2 : Int) (m : Machine) :
    ring_buffer_free status none = none ∧
    (m.buffer.address = NULL → ring_buffer_free status (some m) = some m) ∧
    (m.buffer.address ≠ NULL →
      ∃ m' : Machine, ring_buffer_free status (some m) = some m' ∧
        m'.buffer = { m.buffer with address := NULL, count_bytes := 0 } ∧
        m'.cells = m.cells ∧
        m'.unmapped = m.unmapped ++ [(m.buffer.address, wrap (2 * m.buffer.count_bytes))] ∧
        (0 ≤ m.buffer.count_bytes → 2 * m.buffer.count_bytes ≤ LLONG_MAX →
          wrap (2 * m.buffer.count_bytes) = 2 * m.buffer.count_bytes) ∧
        (status = 0 → m.mapping = some (m.buffer.address, m.buffer.count_bytes) →
          m'.mapping = none)) ∧
    (∀ x : Option Machine,
      ring_buffer_free status2 (ring_buffer_free status x) = ring_buffer_free status x) := by
  have hmin : LLONG_MIN = -(2 ^ 63) := rfl
  refine ⟨rfl, ?_, ?_, ?_⟩
  · intro h
    simp only [ring_buffer_free, if_pos h]
  · intro h
    refine ⟨
      { buffer := { m.buffer with address := 0, count_bytes := 0 }
        mapping :=
          if status = 0 ∧ m.mapping = some (m.buffer.address, m.buffer.count_bytes) then none
          else m.mapping
        cells := m.cells
        unmapped := m.unmapped ++ [(m.buffer.address, wrap (2 * m.buffer.count_bytes))] },
      by simp only [ring_buffer_free, if_neg h], rfl, rfl, rfl, ?_, ?_⟩
    · intro h0 h2
      exact wrap_eq (by omega) h2
    · intro hs hm
      simp only [hs, hm, and_self, if_true]
  · intro x
    cases x with
    | none => rfl
    | some y =>
      by_cases h : y.buffer.address = NULL
      · simp only [ring_buffer_free, if_pos h]
      · simp only [ring_buffer_free, if_neg h]
        rw [if_pos (show (0 : Int) = NULL from rfl)]

/-- C16 at a sample input: the sample buffer is torn down with a `munmap` that
succeeds, then again with one that would fail. -/
theorem teardown_witness :
    (ring_buffer_free 0 (some fresh4096)).map
      (fun m => (m.buffer.address, m.buffer.count_bytes, m.mapping, m.unmapped))
        = some (0, 0, none, [(65536, 8192)]) ∧
    ring_buffer_free (-1) (ring_buffer_free 0 (some fresh4096))
      = ring_buffer_free 0 (some fresh4096) :=
  ⟨by decide, (teardown 0 (-1) fresh4096).2.2.2 (some fresh4096)⟩

/-- The masked cursor is the cursor modulo `count_bytes`, inside the cells. -/
theorem masked_offset {m : Machine} (hI : Inv m) {x : Int} (hx : 0 ≤ x) :
    Int.land m.buffer.count_mask x = x % m.buffer.count_bytes ∧
    0 ≤ x % m.buffer.count_bytes ∧ x % m.buffer.count_bytes < m.buffer.count_bytes := by
  obtain ⟨k, hk⟩ := hI.capacity
  have hpos := count_pos hI
  refine ⟨?_, Int.emod_nonneg x (ne_of_gt hpos), Int.emod_lt_of_pos x hpos⟩
  rw [hI.mask, hk, land_mask k hx]

/-! ## C17: masked addressing -/

/-- C17, as amended: for a state satisfying the data-model invariants, the
offset `ring_buffer_write_address` and `ring_buffer_read_address` add to
`address`, which is also the one write, read and peek use, is the cursor
`& count_mask`, equal to the cursor modulo `count_bytes` and inside
`[0, count_bytes)`. For every `n ≥ 0`, peek (with
`0 ≤ cached_write_offset ≤ write_offset_bytes`) copies a number of bytes in
`[0, count_bytes]` from a span inside the mapped region; so does read when
`read_offset_bytes + n ≤ LLONG_MAX`, and so does write when
`cached_read_offset ≤ read_offset_bytes` and neither `write_offset_bytes + n`
nor `read_offset_bytes + count_bytes` exceeds `LLONG_MAX`. -/
theorem masked_addressing (m : Machine) (data : List Byte) (n : Int) (hI : Inv m)
    (hcw0 : 0 ≤ m.buffer.cached_write_offset)
    (hcw : m.buffer.cached_write_offset ≤ m.buffer.write_offset_bytes) (hn : 0 ≤ n) :
    (ring_buffer_write_address m.buffer
        = m.buffer.address + m.buffer.write_offset_bytes % m.buffer.count_bytes ∧
      0 ≤ m.buffer.write_offset_bytes % m.buffer.count_bytes ∧
      m.buffer.write_offset_bytes % m.buffer.count_bytes < m.buffer.count_bytes) ∧
    (ring_buffer_read_address m.buffer
        = m.buffer.address + m.buffer.read_offset_bytes % m.buffer.count_bytes ∧
      0 ≤ m.buffer.read_offset_bytes % m.buffer.count_bytes ∧
      m.buffer.read_offset_bytes % m.buffer.count_bytes < m.buffer.count_bytes) ∧
    (∃ (m' : Machine) (k : Int) (out : List Byte),
      ring_buffer_peek m n = some (m', k, out) ∧ 0 ≤ k ∧ k ≤ m.buffer.count_bytes ∧
      m.buffer.read_offset_bytes % m.buffer.count_bytes + k ≤ 2 * m.buffer.count_bytes ∧
      span m (ring_buffer_read_address m.buffer) k.toNat
        = some (m.buffer.count_bytes.toNat,
            (m.buffer.read_offset_bytes % m.buffer.count_bytes).toNat)) ∧
    (m.buffer.read_offset_bytes + n ≤ LLONG_MAX →
      ∃ (m' : Machine) (k : Int) (out : List Byte),
        ring_buffer_read m n = some (m', k, out) ∧ 0 ≤ k ∧ k ≤ m.buffer.count_bytes ∧
        m.buffer.read_offset_bytes % m.buffer.count_bytes + k ≤ 2 * m.buffer.count_bytes ∧
        span m (ring_buffer_read_address m.buffer) k.toNat
          = some (m.buffer.count_bytes.toNat,
              (m.buffer.read_offset_bytes % m.buffer.count_bytes).toNat)) ∧
    (m.buffer.cached_read_offset ≤ m.buffer.read_offset_bytes →
      m.buffer.write_offset_bytes + n ≤ LLONG_MAX →
      m.buffer.read_offset_bytes + m.buffer.count_bytes ≤ LLONG_MAX →
      min n (ring_buffer_count_free_bytes m.buffer).2 ≤ data.length →
      ∃ (m' : Machine) (k : Int),
        ring_buffer_write m data n = some (m', k) ∧ 0 ≤ k ∧ k ≤ m.buffer.count_bytes ∧
        m.buffer.write_offset_bytes % m.buffer.count_bytes + k ≤ 2 * m.buffer.count_bytes ∧
        span m (ring_buffer_write_address m.buffer) k.toNat
          = some (m.buffer.count_bytes.toNat,
              (m.buffer.write_offset_bytes % m.buffer.count_bytes).toNat)) := by
  have h0 := hI.read_nonneg
  have h1 := hI.read_le_write
  have h2 := hI.write_le
  have hpos := count_pos hI
  obtain ⟨ew, ew0, ew1⟩ := masked_offset hI (le_trans h0 h1)
  obtain ⟨er, er0, er1⟩ := masked_offset hI h0
  refine ⟨⟨?_, ew0, ew1⟩, ⟨?_, er0, er1⟩, ?_, ?_, ?_⟩
  · unfold ring_buffer_write_address; rw [ew]
  · unfold ring_buffer_read_address; rw [er]
  · refine ⟨_, _, _, peek_run hI hcw0 hcw hn, by omega, by omega, by omega, ?_⟩
    exact span_cursor hI h0 (by omega)
  · intro hov
    refine ⟨_, _, _, read_run hI hcw hn hov, by omega, by omega, by omega, ?_⟩
    exact span_cursor hI h0 (by omega)
  · intro hcr hov hroom hd
    rw [count_free_bytes_eq hI] at hd
    refine ⟨_, _, write_run hI hcr hn hov hroom hd, by omega, by omega, by omega, ?_⟩
    exact span_cursor hI (le_trans h0 h1) (by omega)

/-- C17 fails as stated. The sample buffer is empty with both cursors at 1;
`ring_buffer_read` with `n = LLONG_MAX` does not truncate the length
(`read_offset + count_bytes` wraps), so the span handed to `memmove` starts at
offset 1 and is `LLONG_MAX` bytes long, more than `count_bytes`: it leaves the
mapped region of 8192 bytes and the call has no result. -/
theorem masked_addressing_overflow :
    Inv (at4096 1 1 1 1) ∧ 0 ≤ LLONG_MAX ∧
    ring_buffer_read_address (at4096 1 1 1 1).buffer = (at4096 1 1 1 1).buffer.address + 1 ∧
    (at4096 1 1 1 1).buffer.count_bytes < (size_t LLONG_MAX : Int) ∧
    span (at4096 1 1 1 1) (ring_buffer_read_address (at4096 1 1 1 1).buffer) (size_t LLONG_MAX)
      = none ∧
    (ring_buffer_read (at4096 1 1 1 1) LLONG_MAX).map (fun a => a.2) = none :=
  ⟨inv_at4096 (by decide) (by decide) (by decide) (by decide) (by decide) (by decide),
    by decide, by decide, by decide, by decide, by decide⟩

/-- C17 (amended) at a sample input: cursors at 4100 and 4094, ten bytes asked
of each call. -/
theorem masked_addressing_witness :
    ring_buffer_write_address (at4096 4100 4094 0 0).buffer = 65536 + 4 ∧
    ring_buffer_read_address (at4096 4100 4094 0 0).buffer = 65536 + 4094 ∧
    (∃ (m' : Machine) (out : List Byte),
      ring_buffer_peek (at4096 4100 4094 0 0) 10 = some (m', 6, out)) ∧
    (∃ (m' : Machine) (out : List Byte),
      ring_buffer_read (at4096 4100 4094 0 0) 10 = some (m', 6, out)) ∧
    (∃ m' : Machine,
      ring_buffer_write (at4096 4100 4094 0 0) (List.replicate 10 7) 10 = some (m', 10)) := by
  obtain ⟨⟨hw, -⟩, ⟨hr, -⟩, ⟨mp, kp, op, hp, -⟩, hread, hwrite⟩ :=
    masked_addressing (at4096 4100 4094 0 0) (List.replicate 10 7) 10
      (inv_at4096 (by decide) (by decide) (by decide) (by decide) (by decide) (by decide))
      (by decide) (by decide) (by decide)
  obtain ⟨mr, kr, or, hr', -⟩ := hread (by decide)
  obtain ⟨mw, kw, hw', -⟩ := hwrite (by decide) (by decide) (by decide) (by decide)
  have e1 : kp = 6 := by
    have : (ring_buffer_peek (at4096 4100 4094 0 0) 10).map (fun a => a.2.1) = some 6 := by decide
    rw [hp] at this
    simpa using this
  have e2 : kr = 6 := by
    have : (ring_buffer_read (at4096 4100 4094 0 0) 10).map (fun a => a.2.1) = some 6 := by decide
    rw [hr'] at this
    simpa using this
  have e3 : kw = 10 := by
    have : (ring_buffer_write (at4096 4100 4094 0 0) (List.replicate 10 7) 10).map Prod.snd
        = some 10 := by decide
    rw [hw'] at this
    simpa using this
  subst e1 e2 e3
  exact ⟨by rw [hw]; decide, by rw [hr]; decide, ⟨mp, op, hp⟩, ⟨mr, or, hr'⟩, ⟨mw, hw'⟩⟩

/-! ## C18: FIFO order -/

/-- C18 does not hold of the code. The sample buffer (capacity 4096) has its
cursors at 4094 and nothing unread; writing `U = [1, 2, 3, 4, 5, 6]` leaves
`crossing4096`, a state that satisfies the data model, with write cursor 4100,
read cursor 4094 and the six unread bytes `U` at offsets 4094 to 4099 of the
region. More than ten bytes are free; `ring_buffer_write (S, 10)` with
`S = [11, …, 20]` returns 10 and leaves `U` in place, but it stores `S` at
offset `4100 & 4095 = 4`, in the first half of the region, while
`ring_buffer_read (out, 16)` copies the 16 bytes from offset 4094 on, the last
ten of them from the second half: it returns 16 with `out` equal to `U`
followed by ten zero bytes, not by `S`. -/
theorem fifo_order_lost :
    Inv crossing4096 ∧
    ring_buffer_write (at4096 4094 4094 0 0) [1, 2, 3, 4, 5, 6] 6 = some (crossing4096, 6) ∧
    crossing4096.buffer.write_offset_bytes - crossing4096.buffer.read_offset_bytes = 6 ∧
    memmove_out crossing4096 (ring_buffer_read_address crossing4096.buffer) 6
      = some [1, 2, 3, 4, 5, 6] ∧
    (10 : Int) ≤ (ring_buffer_count_free_bytes crossing4096.buffer).2 ∧
    ring_buffer_write_address crossing4096.buffer = crossing4096.buffer.address + 4 ∧
    ring_buffer_read_address crossing4096.buffer = crossing4096.buffer.address + 4094 ∧
    ring_buffer_write crossing4096 [11, 12, 13, 14, 15, 16, 17, 18, 19, 20] 10
      = some (landed4096, 10) ∧
    memmove_out landed4096 (ring_buffer_read_address landed4096.buffer) 6
      = some [1, 2, 3, 4, 5, 6] ∧
    memmove_out landed4096 (landed4096.buffer.address + 4) 10
      = some [11, 12, 13, 14, 15, 16, 17, 18, 19, 20] ∧
    (ring_buffer_read landed4096 16).map (fun b => b.2)
      = some (16, [1, 2, 3, 4, 5, 6, 0, 0, 0, 0, 0, 0, 0, 0, 0, 0]) ∧
    ([1, 2, 3, 4, 5, 6, 0, 0, 0, 0, 0, 0, 0, 0, 0, 0] : List Byte)
      ≠ [1, 2, 3, 4, 5, 6] ++ [11, 12, 13, 14, 15, 16, 17, 18, 19, 20] :=
  ⟨inv_cells
      (inv_at4096 (by decide) (by decide) (by decide) (by decide) (by decide) (by decide)) _,
    rfl, by decide, by decide, by decide, by decide, by decide, rfl, by decide, by decide,
    by decide, by decide⟩

/-! ## C19: cached snapshots -/

/-- C19, as amended: in every state reached from a successful
`ring_buffer_create` by calls (reset included) with non-negative lengths that
overflow no `llong` sum, `cached_read_offset ≤ read_offset_bytes` and
`cached_write_offset ≤ write_offset_bytes`; hence the free space computed from
the cached read offset is at most what `ring_buffer_count_free_bytes` returns,
and the available data computed from the cached write offset is at most what
`ring_buffer_count_bytes` returns. -/
theorem cached_not_ahead (h : Host) (order : Int) (m : Machine)
    (hR : Reach fitting_call h order m) :
    m.buffer.cached_read_offset ≤ m.buffer.read_offset_bytes ∧
    m.buffer.cached_write_offset ≤ m.buffer.write_offset_bytes ∧
    m.buffer.count_bytes + m.buffer.cached_read_offset - m.buffer.write_offset_bytes
      ≤ (ring_buffer_count_free_bytes m.buffer).2 ∧
    m.buffer.cached_write_offset - m.buffer.read_offset_bytes
      ≤ (ring_buffer_count_bytes m.buffer).2 := by
  obtain ⟨hI, -, hcr, -, hcw⟩ := reach_sound hR
  rw [count_bytes_eq hI, count_free_bytes_eq hI]
  exact ⟨hcr, hcw, by omega, by omega⟩

/-- C19 fails as stated. After a successful creation (capacity 4096),
`advance_write (1)`, `available_for_read ()` (which caches the write cursor 1)
and `advance_write (LLONG_MAX)`, all lengths non-negative, the write cursor is
`LLONG_MIN` and the cached write offset, 1, is ahead of it. -/
theorem cached_not_ahead_overflow :
    ∃ m : Machine, Reach nonneg_call host4096 12 m ∧
      m.buffer.cached_write_offset = 1 ∧ m.buffer.write_offset_bytes = LLONG_MIN ∧
      ¬ (m.buffer.cached_write_offset ≤ m.buffer.write_offset_bytes) := by
  refine ⟨_, Reach.call (Call.advance_write LLONG_MAX)
    (Reach.call Call.available_for_read
      (Reach.call (Call.advance_write 1) (Reach.created created4096) ?_ rfl) trivial rfl)
    ?_ rfl, ?_⟩
  · show (0 : Int) ≤ 1
    decide
  · show (0 : Int) ≤ LLONG_MAX
    decide
  · rw [create4096]
    decide

/-- C19 (amended) at a sample input: the state after creation, a write of
three bytes and a read of two. -/
theorem cached_not_ahead_witness :
    ∃ m1 m2 : Machine,
      exec (ring_buffer_create host4096 zeroed 12) (Call.write [1, 2, 3] 3) = some m1 ∧
      exec m1 (Call.read 2) = some m2 ∧
      m2.buffer.cached_write_offset = 3 ∧ m2.buffer.read_offset_bytes = 2 ∧
      m2.buffer.cached_read_offset ≤ m2.buffer.read_offset_bytes ∧
      m2.buffer.cached_write_offset ≤ m2.buffer.write_offset_bytes := by
  have he : ∃ m1 m2 : Machine,
      exec (ring_buffer_create host4096 zeroed 12) (Call.write [1, 2, 3] 3) = some m1 ∧
      exec m1 (Call.read 2) = some m2 ∧
      m2.buffer.cached_write_offset = 3 ∧ m2.buffer.read_offset_bytes = 2 ∧
      fitting_call (ring_buffer_create host4096 zeroed 12) (Call.write [1, 2, 3] 3) ∧
      fitting_call m1 (Call.read 2) := by
    rw [create4096]
    exact ⟨_, _, rfl, rfl, rfl, rfl,
      ⟨by show (0 : Int) ≤ 3; decide, by show (0 : Int) + 3 ≤ LLONG_MAX; decide,
        by show (0 : Int) + 4096 ≤ LLONG_MAX; decide⟩,
      ⟨by show (0 : Int) ≤ 2; decide, by show (0 : Int) + 2 ≤ LLONG_MAX; decide⟩⟩
  obtain ⟨m1, m2, h1, h2, hcw, hr, hok1, hok2⟩ := he
  have h := cached_not_ahead host4096 12 m2
    (Reach.call _ (Reach.call _ (Reach.created created4096) hok1 h1) hok2 h2)
  exact ⟨m1, m2, h1, h2, hcw, hr, h.1, h.2.1⟩

/-! ## C20: the copying path and the zero-copy path -/

/-- C20, as amended: for a state satisfying the data-model invariants with the
caches not ahead of the cursors, and every `n ≥ 0` for which neither
`write_offset_bytes + n` nor `read_offset_bytes + count_bytes` exceeds
`LLONG_MAX`: the write cursor after `ring_buffer_write (data, n)` is the write
cursor `ring_buffer_write_advance (n)` gives on the same state, and the bytes
copied are found from the address `ring_buffer_write_address` gives for that
state; the read cursor after `ring_buffer_read (data, n)` is the read cursor
`ring_buffer_read_advance (n)` gives, and the bytes handed out are those found
from the address `ring_buffer_read_address` gives. -/
theorem copy_agrees_with_advance (m : Machine) (data : List Byte) (n : Int) (hI : Inv m)
    (hcr : m.buffer.cached_read_offset ≤ m.buffer.read_offset_bytes)
    (hcw : m.buffer.cached_write_offset ≤ m.buffer.write_offset_bytes) (hn : 0 ≤ n)
    (hov : m.buffer.write_offset_bytes + n ≤ LLONG_MAX)
    (hroom : m.buffer.read_offset_bytes + m.buffer.count_bytes ≤ LLONG_MAX)
    (hd : min n (ring_buffer_count_free_bytes m.buffer).2 ≤ data.length) :
    (∃ (m' : Machine) (k : Int),
      ring_buffer_write m data n = some (m', k) ∧
      m'.buffer.write_offset_bytes
        = (ring_buffer_write_advance m.buffer n).write_offset_bytes ∧
      memmove_out m' (ring_buffer_write_address m.buffer) k = some (data.take k.toNat)) ∧
    (∃ (m' : Machine) (k : Int) (out : List Byte),
      ring_buffer_read m n = some (m', k, out) ∧
      m'.buffer.read_offset_bytes
        = (ring_buffer_read_advance m.buffer n).read_offset_bytes ∧
      memmove_out m (ring_buffer_read_address m.buffer) k = some out) := by
  rw [count_free_bytes_eq hI] at hd
  have h0 := hI.read_nonneg
  have h1 := hI.read_le_write
  have h2 := hI.write_le
  have hpos := count_pos hI
  have hC := hI.count_llong.2
  have hmx : max n 0 = n := max_eq_left hn
  constructor
  · refine ⟨_, _, write_run hI hcr hn hov hroom hd, ?_, ?_⟩
    · rw [write_advance_run m.buffer n (by omega) (by omega) (by omega) hroom, hmx]
      show m.buffer.write_offset_bytes + min _ _ = min _ _
      omega
    · unfold memmove_out ring_buffer_write_address
      rw [size_t_eq (by omega) (by omega)]
      have hsp : span m
          (m.buffer.address + Int.land m.buffer.count_mask m.buffer.write_offset_bytes)
          (min n (m.buffer.count_bytes -
            (m.buffer.write_offset_bytes - m.buffer.read_offset_bytes))).toNat = _ :=
        span_cursor hI (le_trans h0 h1) (by omega)
      unfold span at hsp ⊢
      simp only at hsp ⊢
      rw [hsp]
      simp only
      congr 1
      exact load_store_take _ _ _ _ (by omega)
  · refine ⟨_, _, _, read_run hI hcw hn (by omega), ?_, ?_⟩
    · rw [read_advance_run m.buffer n h0 (by omega), hmx]
      show m.buffer.read_offset_bytes + min _ _ = min _ _
      omega
    · unfold memmove_out ring_buffer_read_address
      rw [size_t_eq (by omega) (by omega), span_cursor hI h0 (by omega)]

/-- C20 fails as stated, on two inputs that satisfy its hypotheses.
(1) The sample buffer is empty with both cursors at `LLONG_MAX - 1` and the
cached read offset at `LLONG_MAX - 4096`. `ring_buffer_write (data, 0)` copies
nothing and leaves the write cursor; `ring_buffer_write_advance (0)` computes
`read_offset_bytes + count_bytes`, which wraps to `LLONG_MIN + 4094`, and moves
the write cursor there.
(2) The sample buffer is empty with both cursors at 1.
`ring_buffer_read_advance (LLONG_MAX)` leaves the read cursor at `LLONG_MIN`,
while `ring_buffer_read (data, LLONG_MAX)` asks `memmove` for `LLONG_MAX`
bytes and has no result. -/
theorem copy_agrees_with_advance_overflow :
    (Inv (at4096 (LLONG_MAX - 1) (LLONG_MAX - 1) (LLONG_MAX - 4096) 0) ∧
      (ring_buffer_write (at4096 (LLONG_MAX - 1) (LLONG_MAX - 1) (LLONG_MAX - 4096) 0)
        [] 0).map (fun a => (a.1.buffer.write_offset_bytes, a.2)) = some (LLONG_MAX - 1, 0) ∧
      (ring_buffer_write_advance
        (at4096 (LLONG_MAX - 1) (LLONG_MAX - 1) (LLONG_MAX - 4096) 0).buffer 0).write_offset_bytes
        = LLONG_MIN + 4094) ∧
    (Inv (at4096 1 1 1 1) ∧
      (ring_buffer_read_advance (at4096 1 1 1 1).buffer LLONG_MAX).read_offset_bytes
        = LLONG_MIN ∧
      (ring_buffer_read (at4096 1 1 1 1) LLONG_MAX).map (fun a => a.2) = none) :=
  ⟨⟨inv_at4096 (by decide) (by decide) (by decide) (by decide) (by decide) (by decide),
      by decide, by decide⟩,
    ⟨inv_at4096 (by decide) (by decide) (by decide) (by decide) (by decide) (by decide),
      by decide, by decide⟩⟩

/-- C20 (amended) at a sample input: three bytes unread, ten bytes asked of
each path. -/
theorem copy_agrees_with_advance_witness :
    (∃ (m' : Machine) (k : Int),
      ring_buffer_write (at4096 7 4 0 0) (List.replicate 10 9) 10 = some (m', k) ∧
      m'.buffer.write_offset_bytes
        = (ring_buffer_write_advance (at4096 7 4 0 0).buffer 10).write_offset_bytes ∧
      memmove_out m' (ring_buffer_write_address (at4096 7 4 0 0).buffer) k
        = some ((List.replicate 10 9).take k.toNat)) ∧
    (∃ (m' : Machine) (k : Int) (out : List Byte),
      ring_buffer_read (at4096 7 4 0 0) 10 = some (m', k, out) ∧
      m'.buffer.read_offset_bytes
        = (ring_buffer_read_advance (at4096 7 4 0 0).buffer 10).read_offset_bytes ∧
      memmove_out (at4096 7 4 0 0) (ring_buffer_read_address (at4096 7 4 0 0).buffer) k
        = some out) :=
  copy_agrees_with_advance (at4096 7 4 0 0) (List.replicate 10 9) 10
    (inv_at4096 (by decide) (by decide) (by decide) (by decide) (by decide) (by decide))
    (by decide) (by decide) (by decide) (by decide) (by decide) (by decide)

end RingBuffer
